import Mathlib

/-!
# Verification of the spsc-ringbuf-core primitives

A shallow embedding of the Rust sources `ringbuf_ref.rs`, `ringbuf.rs`,
`shared_singleton.rs` and `shared_pool.rs`.

Machine integers (`u32`) are modelled as `Nat` together with explicit
`% 2^32` wherever the Rust code performs wrapping arithmetic
(`wrapping_add`, `wrapping_sub`).  The `MaybeUninit<T>` slots of the ring
buffer are modelled as `Option` values (`none` = uninitialized); reads of
uninitialized slots never occur in the verified scenarios.
-/

namespace Spsc

/-- `2^32`, the modulus of the `u32` counter type used by `Index`. -/
def U32 : Nat := 4294967296

/-- `u32::MAX`. -/
def u32Max : Nat := 4294967295

/-- Models `u32::is_power_of_two` (true iff the value is `2^k` for some
`k`; a `u32` value is below `2^32`, so searching exponents `k < 33`
is exhaustive). -/
def isPow2 (n : Nat) : Bool := (List.range 33).any (fun k => n == 2 ^ k)

/-- The compile-time assertion of `Index<N>`:
`assert!(N < (u32::MAX/2) as usize)`. -/
def Index.okCond (N : Nat) : Prop := N < u32Max / 2

/-- The compile-time assertion of `RingBufRef<T, N>`: `assert!(N > 0)`. -/
def RingBufRef.okCond (N : Nat) : Prop := 0 < N

/-- A capacity `N` accepted by both compile-time checks of the source. -/
def Supported (N : Nat) : Prop := RingBufRef.okCond N ∧ Index.okCond N

instance (N : Nat) : Decidable (Index.okCond N) :=
  inferInstanceAs (Decidable (N < u32Max / 2))

instance (N : Nat) : Decidable (RingBufRef.okCond N) :=
  inferInstanceAs (Decidable (0 < N))

instance (N : Nat) : Decidable (Supported N) :=
  inferInstanceAs (Decidable (_ ∧ _))

/-- `Index<const N: usize>`: a `u32` counter (`cell: Cell<u32>`). -/
structure Index (N : Nat) where
  cell : Nat

namespace Index

/-- `Index::new(val)` (stores the `u32` argument). -/
def new (val : Nat) : Index N := ⟨val⟩

/-- `Index::get()`. -/
def get (i : Index N) : Nat := i.cell

end Index

/-- `u32::wrapping_add` on `Nat` representatives `< 2^32`. -/
def wrappingAdd (a b : Nat) : Nat := (a + b) % U32

/-- `u32::wrapping_sub` on `Nat` representatives `< 2^32`. -/
def wrappingSub (a b : Nat) : Nat := (a + U32 - b) % U32

namespace Index

/-- `Index::wrap_inc()`: wrapping increment, then manual wrap into
`[0, 2N)` when `N` is not a power of two. -/
def wrap_inc (i : Index N) : Index N :=
  if ¬ isPow2 N = true ∧ 2 * N - 1 < wrappingAdd i.cell 1 then
    ⟨wrappingSub (wrappingAdd i.cell 1) (2 * N)⟩
  else
    ⟨wrappingAdd i.cell 1⟩

/-- `Index::wrap_dist(other)`: raw wrapping subtraction, corrected by
`± 2N` when `N` is not a power of two.  The `(raw as i32) < 0` test of the
source is `2^31 ≤ raw` on the `u32` representative. -/
def wrap_dist (i other : Index N) : Nat :=
  if ¬ isPow2 N = true then
    if 2 ^ 31 ≤ wrappingSub i.cell other.cell then
      wrappingAdd (wrappingSub i.cell other.cell) (2 * N)
    else if 2 * N - 1 < wrappingSub i.cell other.cell then
      wrappingSub (wrappingSub i.cell other.cell) (2 * N)
    else wrappingSub i.cell other.cell
  else wrappingSub i.cell other.cell

/-- `Index::mask()`: reduce the counter to a slot index in `[0, N)`. -/
def mask (i : Index N) : Nat :=
  if isPow2 N then i.cell &&& (N - 1)
  else if N - 1 < i.cell then i.cell - N
  else i.cell

end Index

/-- The effective modulus of the counter dynamics: `2^32` when `N` is a
power of two (the code lets the counter wrap natively), `2N` otherwise. -/
def modBase (N : Nat) : Nat := if isPow2 N then U32 else 2 * N

/-- The error codes of `ringbuf_ref.rs`. -/
inductive ErrCode where
  | BuffFull
  | BuffEmpty
deriving DecidableEq

/-- `RingBufRef<T, N>`: two mirrored indices and `N` possibly
uninitialized slots (`buffer_ucell`), modelled as `Option` values. -/
structure RingBufRef (α : Type) (N : Nat) where
  rd_idx : Index N
  wr_idx : Index N
  buffer : Fin N → Option α

namespace RingBufRef

variable {α : Type} {N : Nat}

/-- `RingBufRef::new()` / `INIT_0`. -/
def new : RingBufRef α N := ⟨Index.new 0, Index.new 0, fun _ => none⟩

/-- `is_empty`: raw equality of the two counters. -/
def is_empty (s : RingBufRef α N) : Bool := s.rd_idx.get == s.wr_idx.get

/-- `len`: `wr_idx.wrap_dist(&rd_idx)`. -/
def len (s : RingBufRef α N) : Nat := s.wr_idx.wrap_dist s.rd_idx

/-- `is_full`: `len() as usize == N`. -/
def is_full (s : RingBufRef α N) : Bool := len s == N

/-- `capacity()`. -/
def capacity (_s : RingBufRef α N) : Nat := N

/-- Read of `buffer_ucell[v]` (out of bounds would panic in Rust; we
return `none`, and bounds are proved at every use). -/
def getSlot (s : RingBufRef α N) (v : Nat) : Option α :=
  if h : v < N then s.buffer ⟨v, h⟩ else none

/-- Write through the `&mut T` obtained from slot `v` (out-of-bounds
writes cannot occur: `v` is always a masked index). -/
def setSlot (s : RingBufRef α N) (v : Nat) (x : α) : RingBufRef α N :=
  { s with buffer := fun i => if i.val = v then some x else s.buffer i }

/-- `alloc()`: the masked write slot if not full.  The `&mut T` result is
modelled by the index of the slot the caller may write. -/
def alloc (s : RingBufRef α N) : Option Nat :=
  if is_full s then none else some s.wr_idx.mask

/-- `commit()`. -/
def commit (s : RingBufRef α N) : RingBufRef α N × Option ErrCode :=
  if is_full s then (s, some .BuffFull)
  else ({ s with wr_idx := s.wr_idx.wrap_inc }, none)

/-- `push(val)`: write the slot at `mask(wr_idx)`, then `wrap_inc`. -/
def push (s : RingBufRef α N) (v : α) : RingBufRef α N × Option ErrCode :=
  if is_full s then (s, some .BuffFull)
  else ({ setSlot s s.wr_idx.mask v with wr_idx := s.wr_idx.wrap_inc }, none)

/-- `peek()`. -/
def peek (s : RingBufRef α N) : Option α :=
  if is_empty s then none else getSlot s s.rd_idx.mask

/-- `pop()`. -/
def pop (s : RingBufRef α N) : RingBufRef α N × Option ErrCode :=
  if is_empty s then (s, some .BuffEmpty)
  else ({ s with rd_idx := s.rd_idx.wrap_inc }, none)

/-- Counters lie in the effective domain: below `2^32` in the
power-of-two case, below `2N` otherwise. -/
def Wf (s : RingBufRef α N) : Prop :=
  s.rd_idx.cell < modBase N ∧ s.wr_idx.cell < modBase N

/-- The mathematical fill level of the buffer: distance from `rd_idx` to
`wr_idx` modulo the effective counter modulus. -/
def trueLen (s : RingBufRef α N) : Nat :=
  (s.wr_idx.cell + modBase N - s.rd_idx.cell) % modBase N

/-- The sequence of live slots, oldest first:
slot `mask(rd_idx + j)` for `j < trueLen`. -/
def liveOpt (s : RingBufRef α N) : List (Option α) :=
  (List.range (trueLen s)).map
    (fun j => getSlot s (Index.mask (Index.mk ((s.rd_idx.cell + j) % modBase N) : Index N)))

end RingBufRef

/-- A producer/consumer operation on a ring buffer. -/
inductive RBOp (α : Type) where
  | push (v : α)
  | pop

namespace RingBufRef

/-- Run a sequence of operations; collect the successfully pushed values
and, for each successful `pop`, the value `peek` observes just before it. -/
def runOps (s : RingBufRef α N) : List (RBOp α) → RingBufRef α N × List α × List α
  | [] => (s, [], [])
  | RBOp.push v :: rest =>
    let r := push s v
    let rec1 := runOps r.1 rest
    (rec1.1, (if r.2 = none then [v] else []) ++ rec1.2.1, rec1.2.2)
  | RBOp.pop :: rest =>
    let r := pop s
    let obs := if r.2 = none then (peek s).toList else []
    let rec1 := runOps r.1 rest
    (rec1.1, rec1.2.1, obs ++ rec1.2.2)

/-- One `stage` (= `alloc` + write through the returned reference)
followed by one `commit`; the `Bool` records overall success. -/
def stage_commit (s : RingBufRef α N) (v : α) : RingBufRef α N × Bool :=
  match alloc s with
  | none => (s, false)
  | some slot =>
    match commit (setSlot s slot v) with
    | (s2, none) => (s2, true)
    | (s2, some _) => (s2, false)

/-- Iterate `stage_commit` `k` times; the `Bool` is the conjunction of
all the success flags. -/
def iterSC (s : RingBufRef α N) (v : α) : Nat → RingBufRef α N × Bool
  | 0 => (s, true)
  | k + 1 =>
    let r := stage_commit s v
    let rest := iterSC r.1 v k
    (rest.1, r.2 && rest.2)

/-- Iterate `pop` `k` times; the `Bool` is the conjunction of the
success flags. -/
def iterPop (s : RingBufRef α N) : Nat → RingBufRef α N × Bool
  | 0 => (s, true)
  | k + 1 =>
    let r := pop s
    let rest := iterPop r.1 k
    (rest.1, r.2.isNone && rest.2)

/-- The simulation invariant tying a buffer state to the list of its
live values, oldest first. -/
def Inv (s : RingBufRef α N) (l : List α) : Prop :=
  Wf s ∧ trueLen s = l.length ∧ l.length ≤ N ∧ liveOpt s = l.map some

end RingBufRef

/-- The general path of `wrap_inc`: explicit subtraction of `2N` at the
wrap boundary. -/
def genWrapInc (N v : Nat) : Nat :=
  if 2 * N - 1 < wrappingAdd v 1 then wrappingSub (wrappingAdd v 1) (2 * N)
  else wrappingAdd v 1

/-- The general path of `wrap_dist`: raw wrapping subtraction corrected
by `± 2N`. -/
def genWrapDist (N a b : Nat) : Nat :=
  if 2 ^ 31 ≤ wrappingSub a b then wrappingAdd (wrappingSub a b) (2 * N)
  else if 2 * N - 1 < wrappingSub a b then wrappingSub (wrappingSub a b) (2 * N)
  else wrappingSub a b

/-- The general path of `mask`: conditional subtraction of `N`. -/
def genMask (N v : Nat) : Nat := if N - 1 < v then v - N else v

/-- Counter pair of the general-path machine. -/
structure GenState where
  wr : Nat
  rd : Nat
deriving DecidableEq

/-- Everything one can observe about a ring buffer around one
operation: `len`, `is_empty`, `is_full`, both masked slot choices and
the operation result. -/
structure Obs where
  length : Nat
  empty : Bool
  full : Bool
  maskWr : Nat
  maskRd : Nat
  ok : Bool
deriving DecidableEq

/-- A state-changing buffer operation. -/
inductive COp where
  | commit
  | pop
deriving DecidableEq

/-- Observation of the buffer after an operation with result `ok`,
through the code paths. -/
def codeObs {N : Nat} (s : RingBufRef Unit N) (ok : Bool) : Obs :=
  ⟨RingBufRef.len s, RingBufRef.is_empty s, RingBufRef.is_full s,
    s.wr_idx.mask, s.rd_idx.mask, ok⟩

/-- Run the code operations, recording one observation per step. -/
def codeRun {N : Nat} (s : RingBufRef Unit N) : List COp → List Obs
  | [] => []
  | COp.commit :: rest =>
    let r := RingBufRef.commit s
    codeObs r.1 r.2.isNone :: codeRun r.1 rest
  | COp.pop :: rest =>
    let r := RingBufRef.pop s
    codeObs r.1 r.2.isNone :: codeRun r.1 rest

/-- Observation through the general paths. -/
def genObs (N : Nat) (g : GenState) (ok : Bool) : Obs :=
  ⟨genWrapDist N g.wr g.rd, g.rd == g.wr, genWrapDist N g.wr g.rd == N,
    genMask N g.wr, genMask N g.rd, ok⟩

/-- Run the same operations through the general-path semantics over
`[0, 2N)` counters. -/
def genRun (N : Nat) (g : GenState) : List COp → List Obs
  | [] => []
  | COp.commit :: rest =>
    if genWrapDist N g.wr g.rd == N then genObs N g false :: genRun N g rest
    else
      genObs N (GenState.mk (genWrapInc N g.wr) g.rd) true ::
        genRun N (GenState.mk (genWrapInc N g.wr) g.rd) rest
  | COp.pop :: rest =>
    if g.rd == g.wr then genObs N g false :: genRun N g rest
    else
      genObs N (GenState.mk g.wr (genWrapInc N g.rd)) true ::
        genRun N (GenState.mk g.wr (genWrapInc N g.rd)) rest

/-- The simulation relation between a power-of-two code state and a
general-path state: congruent counters, and the same fill level. -/
def SimR (N : Nat) (s : RingBufRef Unit N) (g : GenState) : Prop :=
  s.rd_idx.cell < U32 ∧ s.wr_idx.cell < U32 ∧
  g.rd = s.rd_idx.cell % (2 * N) ∧ g.wr = s.wr_idx.cell % (2 * N) ∧
  RingBufRef.trueLen s ≤ N ∧
  (g.wr + 2 * N - g.rd) % (2 * N) = RingBufRef.trueLen s

/-- The error code of `shared_singleton.rs`. -/
inductive SingletonErr where
  | NotOwned
deriving DecidableEq

/-- The `Owner` tristate of `SharedSingleton`. -/
inductive Owner where
  | Vacant
  | Producer
  | Consumer
deriving DecidableEq

namespace SharedSingleton

/-- `SharedSingleton::new()` / `INIT_0`: initial owner. -/
def new : Owner := Owner.Vacant

/-- `is_vacant()`. -/
def is_vacant (o : Owner) : Bool := o == Owner.Vacant

/-- `try_write()`: `Vacant → Producer`; `some` is the obtained `&mut T`
(modelled by the successor owner state). -/
def try_write (o : Owner) : Option Owner :=
  if o = Owner.Vacant then some Owner.Producer else none

/-- `write_done()`: `Producer → Consumer`. -/
def write_done (o : Owner) : Owner × Option SingletonErr :=
  if o = Owner.Producer then (Owner.Consumer, none) else (o, some SingletonErr.NotOwned)

/-- `try_read()`: `some` iff the owner is `Consumer` (the `&T` itself is
not modelled). -/
def try_read (o : Owner) : Option Unit :=
  if o = Owner.Consumer then some () else none

/-- `read_done()`: `Consumer → Vacant`. -/
def read_done (o : Owner) : Owner × Option SingletonErr :=
  if o = Owner.Consumer then (Owner.Vacant, none) else (o, some SingletonErr.NotOwned)

end SharedSingleton

/-- `RingBuf<T, N>`: a `RingBufRef` plus the two one-way latches. -/
structure RingBuf (α : Type) (N : Nat) where
  ringbuf_ref : RingBufRef α N
  has_split_prod : Bool
  has_split_cons : Bool

namespace RingBuf

variable {α : Type} {N : Nat}

/-- `RingBuf::new()` / `INIT_0`. -/
def new : RingBuf α N := ⟨RingBufRef.new, false, false⟩

/-- `split_prod()`: issue the producer endpoint once; the `Bool` is
success (`Err(())` in the source). -/
def split_prod (r : RingBuf α N) : RingBuf α N × Bool :=
  if r.has_split_prod then (r, false)
  else ({ r with has_split_prod := true }, true)

/-- `split_cons()`. -/
def split_cons (r : RingBuf α N) : RingBuf α N × Bool :=
  if r.has_split_cons then (r, false)
  else ({ r with has_split_cons := true }, true)

/-- `split()`: evaluates both `split_prod()` and `split_cons()` and
fails if either failed. -/
def split (r : RingBuf α N) : RingBuf α N × Bool :=
  let p := split_prod r
  let c := split_cons p.1
  (c.1, p.2 && c.2)

end RingBuf

/-- The failure enumeration of `shared_pool.rs`. -/
inductive SharedPoolError where
  | PoolFull
  | AllocBufFull
  | ReturnBufFull
  | AllocBufEmpty
  | PayloadNotConsumerOwned
  | AlreadySplit
deriving DecidableEq

/-- `PoolIndex::is_valid`: the stored value names a slot iff `< N`. -/
def PoolIndex.is_valid (N v : Nat) : Bool := v < N

/-- `SharedPool<T, Q, N>`: the alloc and return ring buffers and the
array of payload singletons. -/
structure SharedPool (N : Nat) where
  alloc_rbuf : RingBuf Nat N
  return_rbuf : RingBuf Nat N
  pool : Fin N → Owner

namespace SharedPool

variable {N : Nat}

/-- `SharedPool::new()`. -/
def new (N : Nat) : SharedPool N :=
  ⟨RingBuf.new, RingBuf.new, fun _ => SharedSingleton.new⟩

/-- Replace the alloc ring state. -/
def setAllocRbr (p : SharedPool N) (r : RingBufRef Nat N) : SharedPool N :=
  { p with alloc_rbuf := { p.alloc_rbuf with ringbuf_ref := r } }

/-- Replace the return ring state. -/
def setReturnRbr (p : SharedPool N) (r : RingBufRef Nat N) : SharedPool N :=
  { p with return_rbuf := { p.return_rbuf with ringbuf_ref := r } }

/-- Replace one singleton's owner state. -/
def setPool (p : SharedPool N) (i : Fin N) (o : Owner) : SharedPool N :=
  { p with pool := fun j => if j = i then o else p.pool j }

/-- `Producer::get_pool_item`: peek the return queue; a valid entry must
name a vacant slot (asserted — `none` models the panic), then pop it.
An empty return queue yields the sentinel `N`. -/
def get_pool_item (p : SharedPool N) : Option (Nat × SharedPool N) :=
  match RingBufRef.peek p.return_rbuf.ringbuf_ref with
  | some pidx =>
    if h : pidx < N then
      if SharedSingleton.is_vacant (p.pool ⟨pidx, h⟩) then
        some (pidx, setReturnRbr p (RingBufRef.pop p.return_rbuf.ringbuf_ref).1)
      else none
    else none
  | none => some (N, p)

/-- `Producer::stage`: stage an alloc-queue slot and write the sentinel
`PoolIndex(N)` into it. -/
def prod_stage (p : SharedPool N) : SharedPool N × Bool :=
  match RingBufRef.alloc p.alloc_rbuf.ringbuf_ref with
  | some slot =>
    (setAllocRbr p (RingBufRef.setSlot p.alloc_rbuf.ringbuf_ref slot N), true)
  | none => (p, false)

/-- `Producer::stage_with_payload`: take a pool item from the return
queue, then stage an alloc entry carrying its index; if the alloc queue
is full the taken index is attached to nothing. -/
def stage_with_payload (p : SharedPool N) :
    Option (SharedPool N × Option SharedPoolError) :=
  match get_pool_item p with
  | none => none
  | some (v, p1) =>
    if v < N then
      match RingBufRef.alloc p1.alloc_rbuf.ringbuf_ref with
      | some slot =>
        some (setAllocRbr p1 (RingBufRef.setSlot p1.alloc_rbuf.ringbuf_ref slot v), none)
      | none => some (p1, some SharedPoolError.AllocBufFull)
    else some (p1, some SharedPoolError.PoolFull)

/-- `Producer::commit`: if a message is staged and carries a valid
index, its singleton must be Consumer-owned (`try_read().is_some()`),
else `PayloadNotConsumerOwned`; then commit the alloc ring, mapping
`BuffFull` to `AllocBufFull`. -/
def prod_commit (p : SharedPool N) : SharedPool N × Option SharedPoolError :=
  match RingBufRef.alloc p.alloc_rbuf.ringbuf_ref with
  | some _ =>
    match RingBufRef.getSlot p.alloc_rbuf.ringbuf_ref
        p.alloc_rbuf.ringbuf_ref.wr_idx.mask with
    | some pidx =>
      if h : pidx < N then
        if (SharedSingleton.try_read (p.pool ⟨pidx, h⟩)).isSome then
          (setAllocRbr p (RingBufRef.commit p.alloc_rbuf.ringbuf_ref).1, none)
        else (p, some SharedPoolError.PayloadNotConsumerOwned)
      else (setAllocRbr p (RingBufRef.commit p.alloc_rbuf.ringbuf_ref).1, none)
    | none =>
      -- a staged message is always written before commit in legal use;
      -- an uninitialized staged slot is never read in the verified runs
      (setAllocRbr p (RingBufRef.commit p.alloc_rbuf.ringbuf_ref).1, none)
  | none => (p, some SharedPoolError.AllocBufFull)

/-- `Consumer::peek` (the message is its pool index). -/
def cons_peek (p : SharedPool N) : Option Nat :=
  RingBufRef.peek p.alloc_rbuf.ringbuf_ref

/-- `Consumer::pop`. -/
def cons_pop (p : SharedPool N) : SharedPool N × Option SharedPoolError :=
  (setAllocRbr p (RingBufRef.pop p.alloc_rbuf.ringbuf_ref).1,
    (RingBufRef.pop p.alloc_rbuf.ringbuf_ref).2.map
      (fun _ => SharedPoolError.AllocBufEmpty))

/-- `Consumer::enqueue_return`: stage a return entry; the returned index
must be valid and name a vacant slot (asserted — `none` models the
panic); write it and commit. -/
def enqueue_return (p : SharedPool N) (pidx : Nat) :
    Option (SharedPool N × Option SharedPoolError) :=
  match RingBufRef.alloc p.return_rbuf.ringbuf_ref with
  | some slot =>
    if h : pidx < N then
      if SharedSingleton.is_vacant (p.pool ⟨pidx, h⟩) then
        some (setReturnRbr p
            (RingBufRef.commit
              (RingBufRef.setSlot p.return_rbuf.ringbuf_ref slot pidx)).1,
          (RingBufRef.commit
              (RingBufRef.setSlot p.return_rbuf.ringbuf_ref slot pidx)).2.map
            (fun _ => SharedPoolError.ReturnBufFull))
      else none
    else none
  | none => some (p, some SharedPoolError.ReturnBufFull)

/-- Producer-side `try_write` on payload slot `i` (the `&SharedSingleton`
returned by `stage_with_payload`). -/
def payload_try_write (p : SharedPool N) (i : Fin N) : SharedPool N × Bool :=
  match SharedSingleton.try_write (p.pool i) with
  | some o => (setPool p i o, true)
  | none => (p, false)

/-- Producer-side `write_done` on payload slot `i`. -/
def payload_write_done (p : SharedPool N) (i : Fin N) :
    SharedPool N × Option SingletonErr :=
  ((setPool p i (SharedSingleton.write_done (p.pool i)).1),
    (SharedSingleton.write_done (p.pool i)).2)

/-- Consumer-side `read_done` on payload slot `i`. -/
def payload_read_done (p : SharedPool N) (i : Fin N) :
    SharedPool N × Option SingletonErr :=
  ((setPool p i (SharedSingleton.read_done (p.pool i)).1),
    (SharedSingleton.read_done (p.pool i)).2)

/-- One iteration of the seeding loop of `split_cons`: stage a return
slot, set its pool index to `i`, commit; the `Bool` is success (the
source unwraps). -/
def seedStep (r : RingBufRef Nat N) (i : Nat) : RingBufRef Nat N × Bool :=
  match RingBufRef.alloc r with
  | some slot =>
    ((RingBufRef.commit (RingBufRef.setSlot r slot i)).1,
      (RingBufRef.commit (RingBufRef.setSlot r slot i)).2.isNone)
  | none => (r, false)

/-- The seeding loop `for i in 0..k`. -/
def seedLoop (r : RingBufRef Nat N) : Nat → RingBufRef Nat N × Bool
  | 0 => (r, true)
  | k + 1 =>
    let prev := seedLoop r k
    let st := seedStep prev.1 k
    (st.1, prev.2 && st.2)

/-- `SharedPool::split_prod`. -/
def split_prod (p : SharedPool N) : SharedPool N × Option SharedPoolError :=
  if p.alloc_rbuf.has_split_prod || p.return_rbuf.has_split_cons then
    (p, some SharedPoolError.AlreadySplit)
  else
    ({ p with
        alloc_rbuf := { p.alloc_rbuf with has_split_prod := true },
        return_rbuf := { p.return_rbuf with has_split_cons := true } }, none)

/-- `SharedPool::split_cons`: set the latches and run the seeding loop
on the return ring. -/
def split_cons (p : SharedPool N) : SharedPool N × Option SharedPoolError :=
  if p.alloc_rbuf.has_split_cons || p.return_rbuf.has_split_prod then
    (p, some SharedPoolError.AlreadySplit)
  else
    ({ p with
        alloc_rbuf := { p.alloc_rbuf with has_split_cons := true },
        return_rbuf := { p.return_rbuf with
          ringbuf_ref := (seedLoop p.return_rbuf.ringbuf_ref N).1,
          has_split_prod := true } }, none)

/-- `SharedPool::split`: evaluates both `split_prod()` and
`split_cons()`, failing if either failed. -/
def split (p : SharedPool N) : SharedPool N × Option SharedPoolError :=
  let pr := split_prod p
  let cs := split_cons pr.1
  match pr.2, cs.2 with
  | none, none => (cs.1, none)
  | _, _ => (cs.1, some SharedPoolError.AlreadySplit)

end SharedPool

/-- Pool state plus ghost bookkeeping. -/
structure GPool (N : Nat) where
  pool : SharedPool N
  staged : Option Nat
  flight : List Nat
  leaked : List Nat

/-- No payload-carrying message is currently staged (a fresh
transaction may begin). -/
def stagedClear {N : Nat} (g : GPool N) : Prop :=
  g.staged = none ∨ g.staged = some N

/-- The pool state produced by `stage_with_payload` (identity on the
panic branch, which no legal step takes). -/
def swpState {N : Nat} (p : SharedPool N) : SharedPool N :=
  match SharedPool.stage_with_payload p with
  | some (q, _) => q
  | none => p

/-- The pool state produced by `enqueue_return`. -/
def enqState {N : Nat} (p : SharedPool N) (i : Nat) : SharedPool N :=
  match SharedPool.enqueue_return p i with
  | some (q, _) => q
  | none => p

/-- The legal operations of the split pool, acting on the instrumented
state. -/
inductive GStep (N : Nat) : GPool N → GPool N → Prop where
  | stage_norm (g : GPool N)
      (hok : stagedClear g)
      (hfull : RingBufRef.is_full g.pool.alloc_rbuf.ringbuf_ref = false) :
      GStep N g ⟨(SharedPool.prod_stage g.pool).1, some N, g.flight, g.leaked⟩
  | stage_payload_ok (g : GPool N) (i : Nat)
      (hok : stagedClear g)
      (hpeek : RingBufRef.peek g.pool.return_rbuf.ringbuf_ref = some i)
      (hres : (SharedPool.stage_with_payload g.pool).map Prod.snd = some none) :
      GStep N g ⟨swpState g.pool, some i, g.flight, g.leaked⟩
  | stage_payload_leak (g : GPool N) (i : Nat)
      (hok : stagedClear g)
      (hpeek : RingBufRef.peek g.pool.return_rbuf.ringbuf_ref = some i)
      (hres : (SharedPool.stage_with_payload g.pool).map Prod.snd =
        some (some SharedPoolError.AllocBufFull)) :
      GStep N g ⟨swpState g.pool, g.staged, g.flight, i :: g.leaked⟩
  | commit_ok (g : GPool N) (v : Nat)
      (hst : g.staged = some v)
      (hok : (SharedPool.prod_commit g.pool).2 = none) :
      GStep N g ⟨(SharedPool.prod_commit g.pool).1, none, g.flight, g.leaked⟩
  | do_try_write (g : GPool N) (i : Nat) (hi : i < N)
      (hst : g.staged = some i)
      (hok : (SharedPool.payload_try_write g.pool ⟨i, hi⟩).2 = true) :
      GStep N g
        ⟨(SharedPool.payload_try_write g.pool ⟨i, hi⟩).1, g.staged, g.flight, g.leaked⟩
  | do_write_done (g : GPool N) (i : Nat) (hi : i < N)
      (hst : g.staged = some i)
      (hok : (SharedPool.payload_write_done g.pool ⟨i, hi⟩).2 = none) :
      GStep N g
        ⟨(SharedPool.payload_write_done g.pool ⟨i, hi⟩).1, g.staged, g.flight, g.leaked⟩
  | cons_pop (g : GPool N) (m : Nat)
      (hpeek : SharedPool.cons_peek g.pool = some m) :
      GStep N g ⟨(SharedPool.cons_pop g.pool).1, g.staged,
        (if m < N then [m] else []) ++ g.flight, g.leaked⟩
  | do_read_done (g : GPool N) (i : Nat) (hi : i < N)
      (hin : i ∈ g.flight)
      (hok : (SharedPool.payload_read_done g.pool ⟨i, hi⟩).2 = none) :
      GStep N g
        ⟨(SharedPool.payload_read_done g.pool ⟨i, hi⟩).1, g.staged, g.flight, g.leaked⟩
  | do_enqueue_return (g : GPool N) (i : Nat)
      (hin : i ∈ g.flight)
      (hres : (SharedPool.enqueue_return g.pool i).map Prod.snd = some none) :
      GStep N g ⟨enqState g.pool i, g.staged, g.flight.erase i, g.leaked⟩

/-- The state right after a full `split()` of a fresh pool. -/
def initG (N : Nat) : GPool N :=
  ⟨(SharedPool.split (SharedPool.new N)).1, none, [], []⟩

/-- Reachability by legal operation sequences after split. -/
def ReachableG (N : Nat) (g : GPool N) : Prop :=
  Relation.ReflTransGen (GStep N) (initG N) g

/-- The number of live entries of a ring whose message names slot `i`. -/
def countIdx {N : Nat} (r : RingBufRef Nat N) (i : Nat) : Nat :=
  (RingBufRef.liveOpt r).count (some i)

/-- `1` iff the currently staged message names slot `i`. -/
def stagedTerm {N : Nat} (g : GPool N) (i : Nat) : Nat :=
  if g.staged = some i then 1 else 0

/-- The instrumented occurrence count of slot `i`: alloc-queue entries,
consumer flight, return-queue entries, the staged message, and the
leaked indices. -/
def ghostSum {N : Nat} (g : GPool N) (i : Nat) : Nat :=
  countIdx g.pool.alloc_rbuf.ringbuf_ref i + g.flight.count i +
    countIdx g.pool.return_rbuf.ringbuf_ref i + stagedTerm g i + g.leaked.count i

/-- The claim's literal four-term sum, reading "slot i is Consumer-owned
in the producer's flight" as: the singleton is in the `Consumer` state
while the consumer holds the index in flight. -/
def claimSum {N : Nat} (g : GPool N) (i : Nat) : Nat :=
  countIdx g.pool.alloc_rbuf.ringbuf_ref i +
    (if h : i < N then
      (if g.pool.pool ⟨i, h⟩ = Owner.Consumer ∧ i ∈ g.flight then 1 else 0)
     else 0) +
    countIdx g.pool.return_rbuf.ringbuf_ref i + stagedTerm g i

/-- Well-formedness of one pool ring: counters in domain and true fill
level at most `N`. -/
def RingOk (N : Nat) (r : RingBufRef Nat N) : Prop :=
  RingBufRef.Wf r ∧ RingBufRef.trueLen r ≤ N

/-- The protocol invariant: both rings well formed, the staged message
recorded in the ghost field is really in the staged slot (and the alloc
ring is not full while a message is staged), and every slot index is
accounted for exactly once. -/
def INVG (N : Nat) (g : GPool N) : Prop :=
  RingOk N g.pool.alloc_rbuf.ringbuf_ref ∧
  RingOk N g.pool.return_rbuf.ringbuf_ref ∧
  (∀ v, g.staged = some v →
    RingBufRef.trueLen g.pool.alloc_rbuf.ringbuf_ref < N ∧
    RingBufRef.getSlot g.pool.alloc_rbuf.ringbuf_ref
      g.pool.alloc_rbuf.ringbuf_ref.wr_idx.mask = some v) ∧
  ∀ i : Nat, i < N → ghostSum g i = 1

/-! ## Preservation of the pool invariant -/
def incRd {α : Type} {N : Nat} (r : RingBufRef α N) : RingBufRef α N :=
  ⟨r.rd_idx.wrap_inc, r.wr_idx, r.buffer⟩

def incWr {α : Type} {N : Nat} (r : RingBufRef α N) : RingBufRef α N :=
  ⟨r.rd_idx, r.wr_idx.wrap_inc, r.buffer⟩

/-! ## Theorems -/

theorem isPow2_spec (n : Nat) (hn : n < U32) : isPow2 n = true ↔ ∃ k, n = 2 ^ k := by
  unfold isPow2
  rw [List.any_eq_true]
  constructor
  · rintro ⟨k, -, hk⟩
    exact ⟨k, beq_iff_eq.mp hk⟩
  · rintro ⟨k, hk⟩
    refine ⟨k, List.mem_range.mpr ?_, beq_iff_eq.mpr hk⟩
    by_contra hge
    have h1 : 2 ^ 33 ≤ 2 ^ k := Nat.pow_le_pow_right (by norm_num) (by omega)
    have h2 : (2:Nat) ^ 33 = 8589934592 := by norm_num
    have h3 : U32 = 4294967296 := rfl
    omega

theorem supported_two_mul_lt (N : Nat) (h : Supported N) : 2 * N < U32 := by
  obtain ⟨-, h2⟩ := h
  have : N < 2147483647 := h2
  simp only [U32]; omega

theorem supported_pos (N : Nat) (h : Supported N) : 0 < N := h.1

theorem supported_lt (N : Nat) (h : Supported N) : N < 2 ^ 31 - 1 := by
  have : N < 2147483647 := h.2
  omega

theorem supported_lt_U32 (N : Nat) (h : Supported N) : N < U32 := by
  have := supported_lt N h
  have h3 : U32 = 4294967296 := rfl
  omega

theorem modBase_pos (N : Nat) (h : Supported N) : 0 < modBase N := by
  unfold modBase
  split
  · simp [U32]
  · have := supported_pos N h; omega

theorem modBase_le_U32 (N : Nat) (h : Supported N) : modBase N ≤ U32 := by
  unfold modBase
  split
  · exact Nat.le_refl _
  · exact Nat.le_of_lt (supported_two_mul_lt N h)

theorem lt_modBase (N : Nat) (h : Supported N) : N < modBase N := by
  unfold modBase
  split
  · have := supported_lt N h; simp only [U32]; omega
  · have := supported_pos N h; omega

theorem pow2_N_dvd_U32 (N : Nat) (h : Supported N) (hp : isPow2 N = true) :
    N ∣ U32 := by
  obtain ⟨k, rfl⟩ := (isPow2_spec N (supported_lt_U32 N h)).mp hp
  have hk : k ≤ 32 := by
    by_contra hgt
    have : 2 ^ 33 ≤ 2 ^ k := Nat.pow_le_pow_right (by norm_num) (by omega)
    have := supported_lt (2 ^ k) h
    have : (2:Nat) ^ 33 = 8589934592 := by norm_num
    omega
  have : U32 = 2 ^ 32 := by norm_num [U32]
  rw [this]
  exact pow_dvd_pow 2 hk

theorem pow2_two_mul_dvd_U32 (N : Nat) (h : Supported N) (hp : isPow2 N = true) :
    (2 * N) ∣ U32 := by
  obtain ⟨k, rfl⟩ := (isPow2_spec N (supported_lt_U32 N h)).mp hp
  have hk : k + 1 ≤ 32 := by
    by_contra hgt
    have : 2 ^ 32 ≤ 2 ^ k := Nat.pow_le_pow_right (by norm_num) (by omega)
    have := supported_lt (2 ^ k) h
    have : (2:Nat) ^ 32 = U32 := by norm_num [U32]
    simp only [U32] at this
    omega
  have h2 : 2 * 2 ^ k = 2 ^ (k + 1) := by ring
  have h3 : U32 = 2 ^ 32 := by norm_num [U32]
  rw [h2, h3]
  exact pow_dvd_pow 2 hk

theorem N_dvd_modBase (N : Nat) (h : Supported N) : N ∣ modBase N := by
  unfold modBase
  split
  · exact pow2_N_dvd_U32 N h (by assumption)
  · exact dvd_mul_left N 2

/-! ## Arithmetic facts about the `Index` operations -/
theorem U32_pos : 0 < U32 := by norm_num [U32]

theorem wrappingAdd_small (a b : Nat) (h : a + b < U32) : wrappingAdd a b = a + b :=
  Nat.mod_eq_of_lt h

theorem wrappingSub_of_le (a b : Nat) (hba : b ≤ a) (ha : a < U32) :
    wrappingSub a b = a - b := by
  unfold wrappingSub
  have h1 : a + U32 - b = (a - b) + U32 := by omega
  rw [h1, Nat.add_mod_right, Nat.mod_eq_of_lt (by omega)]

/-- `(b + d) mod m` shifted back by `b` recovers `d`. -/
theorem mod_sub_cancel (m b d : Nat) (hb : b < m) (hd : d < m) :
    ((b + d) % m + m - b) % m = d := by
  rcases Nat.lt_or_ge (b + d) m with hlt | hge
  · rw [Nat.mod_eq_of_lt hlt]
    have h1 : b + d + m - b = d + m := by omega
    rw [h1, Nat.add_mod_right, Nat.mod_eq_of_lt hd]
  · have h2 : (b + d) % m = b + d - m := by
      rw [Nat.mod_eq_sub_mod hge, Nat.mod_eq_of_lt (by omega)]
    rw [h2]
    have h3 : b + d - m + m - b = d := by omega
    rw [h3, Nat.mod_eq_of_lt hd]

/-- Any state `a` is aligned at distance `(a + m - b) % m` from `b`. -/
theorem mod_align (m a b : Nat) (ha : a < m) (hb : b < m) :
    a = (b + (a + m - b) % m) % m := by
  by_cases hba : b ≤ a
  · have h1 : a + m - b = (a - b) + m := by omega
    rw [h1, Nat.add_mod_right, Nat.mod_eq_of_lt (show a - b < m by omega)]
    have h2 : b + (a - b) = a := by omega
    rw [h2, Nat.mod_eq_of_lt ha]
  · have h1 : a + m - b < m := by omega
    rw [Nat.mod_eq_of_lt h1]
    have h2 : b + (a + m - b) = a + m := by omega
    rw [h2, Nat.add_mod_right, Nat.mod_eq_of_lt ha]

theorem wrap_inc_cell (N : Nat) (h : Supported N) (v : Nat) (hv : v < modBase N) :
    (Index.wrap_inc (Index.mk v : Index N)).cell = (v + 1) % modBase N := by
  have h2N := supported_two_mul_lt N h
  have hN := supported_pos N h
  unfold Index.wrap_inc
  cases hp : isPow2 N with
  | true =>
    have hmb : modBase N = U32 := by simp [modBase, hp]
    rw [if_neg (by simp [hp])]
    simp [wrappingAdd, hmb]
  | false =>
    have hmb : modBase N = 2 * N := by simp [modBase, hp]
    rw [hmb] at hv
    have hval : wrappingAdd v 1 = v + 1 := wrappingAdd_small _ _ (by omega)
    by_cases hc : 2 * N - 1 < v + 1
    · rw [if_pos (by rw [hval]; exact ⟨by simp [hp], hc⟩)]
      have hv1 : v + 1 = 2 * N := by omega
      rw [hval, hv1, hmb]
      show wrappingSub (2 * N) (2 * N) = 2 * N % (2 * N)
      rw [wrappingSub_of_le _ _ (Nat.le_refl _) h2N, Nat.mod_self, Nat.sub_self]
    · rw [if_neg (by rw [hval]; exact fun hx => hc hx.2)]
      rw [hval, hmb]
      show v + 1 = (v + 1) % (2 * N)
      rw [Nat.mod_eq_of_lt (by omega)]

theorem wrap_inc_cell_lt (N : Nat) (i : Index N) : (Index.wrap_inc i).cell < U32 := by
  unfold Index.wrap_inc
  split
  · exact Nat.mod_lt _ U32_pos
  · exact Nat.mod_lt _ U32_pos

theorem mask_eq_mod (N : Nat) (h : Supported N) (v : Nat) (hv : v < modBase N) :
    Index.mask (Index.mk v : Index N) = v % N := by
  have hN := supported_pos N h
  unfold Index.mask
  cases hp : isPow2 N with
  | true =>
    rw [if_pos (by simp)]
    obtain ⟨k, hk⟩ := (isPow2_spec N (supported_lt_U32 N h)).mp hp
    subst hk
    exact Nat.and_pow_two_sub_one_eq_mod v k
  | false =>
    rw [if_neg (by simp)]
    have hv2 : v < 2 * N := by
      have : modBase N = 2 * N := by simp [modBase, hp]
      omega
    by_cases hc : N - 1 < v
    · rw [if_pos hc, Nat.mod_eq_sub_mod (by omega), Nat.mod_eq_of_lt (by omega)]
    · rw [if_neg hc, Nat.mod_eq_of_lt (by omega)]

theorem mask_lt (N : Nat) (h : Supported N) (v : Nat) (hv : v < modBase N) :
    Index.mask (Index.mk v : Index N) < N := by
  rw [mask_eq_mod N h v hv]
  exact Nat.mod_lt _ (supported_pos N h)

theorem wrap_dist_nowrap (N a b : Nat) (h : Supported N) (hba : b ≤ a)
    (ha : a < U32) (hd : a - b ≤ N) :
    Index.wrap_dist (Index.mk a : Index N) (Index.mk b) = a - b := by
  have hN := supported_pos N h
  have hlt := supported_lt N h
  have hraw : wrappingSub a b = a - b := wrappingSub_of_le a b hba ha
  unfold Index.wrap_dist
  cases hp : isPow2 N with
  | true => rw [if_neg (by simp)]; exact hraw
  | false =>
    rw [if_pos (by simp)]
    rw [if_neg (by rw [hraw]; omega)]
    rw [if_neg (by rw [hraw]; omega)]
    exact hraw

theorem wrap_dist_at_N (N a b : Nat) (h : Supported N) (hb : b < modBase N)
    (ha : a = (b + N) % modBase N) :
    Index.wrap_dist (Index.mk a : Index N) (Index.mk b) = N := by
  have hN := supported_pos N h
  have hlt := supported_lt N h
  have h2N := supported_two_mul_lt N h
  cases hp : isPow2 N with
  | true =>
    have hmb : modBase N = U32 := by simp [modBase, hp]
    rw [hmb] at ha hb
    unfold Index.wrap_dist
    rw [if_neg (by simp [hp])]
    show wrappingSub a b = N
    unfold wrappingSub
    rw [ha]
    exact mod_sub_cancel U32 b N hb (by simp only [U32]; omega)
  | false =>
    have hmb : modBase N = 2 * N := by simp [modBase, hp]
    rw [hmb] at ha hb
    rcases Nat.lt_or_ge (b + N) (2 * N) with hcase | hcase
    · rw [Nat.mod_eq_of_lt hcase] at ha
      have := wrap_dist_nowrap N a b h (by omega) (by omega) (by omega)
      rw [this, ha]
      omega
    · have ha2 : a = b - N := by
        rw [Nat.mod_eq_sub_mod hcase, Nat.mod_eq_of_lt (by omega)] at ha
        omega
      have hraw : wrappingSub a b = U32 - N := by
        unfold wrappingSub
        have h1 : a + U32 - b = (U32 - N) + (a + N - b) := by omega
        have h2 : a + N - b = 0 := by omega
        rw [h1, h2, Nat.add_zero, Nat.mod_eq_of_lt (by omega)]
      unfold Index.wrap_dist
      rw [if_pos (by simp [hp])]
      rw [if_pos (by rw [hraw]; simp only [U32]; omega)]
      rw [hraw]
      unfold wrappingAdd
      have h3 : U32 - N + 2 * N = N + U32 := by omega
      rw [h3, Nat.add_mod_right, Nat.mod_eq_of_lt (by omega)]

namespace RingBufRef

variable {α : Type} {N : Nat}

theorem setSlot_rd_idx (s : RingBufRef α N) (v : Nat) (x : α) :
    (setSlot s v x).rd_idx = s.rd_idx := rfl

theorem setSlot_wr_idx (s : RingBufRef α N) (v : Nat) (x : α) :
    (setSlot s v x).wr_idx = s.wr_idx := rfl

theorem trueLen_congr (s t : RingBufRef α N) (hrd : s.rd_idx = t.rd_idx)
    (hwr : s.wr_idx = t.wr_idx) : trueLen s = trueLen t := by
  unfold trueLen; rw [hrd, hwr]

theorem wr_align (h : Supported N) (s : RingBufRef α N) (hwf : Wf s) :
    s.wr_idx.cell = (s.rd_idx.cell + trueLen s) % modBase N :=
  mod_align (modBase N) _ _ hwf.2 hwf.1

theorem is_empty_iff (h : Supported N) (s : RingBufRef α N) (hwf : Wf s) :
    is_empty s = true ↔ trueLen s = 0 := by
  unfold is_empty Index.get
  constructor
  · intro he
    have heq : s.rd_idx.cell = s.wr_idx.cell := beq_iff_eq.mp he
    unfold trueLen
    rw [← heq]
    have h1 : s.rd_idx.cell + modBase N - s.rd_idx.cell = modBase N := by omega
    rw [h1, Nat.mod_self]
  · intro h0
    have halign := wr_align h s hwf
    rw [h0, Nat.add_zero, Nat.mod_eq_of_lt hwf.1] at halign
    rw [halign]
    exact beq_self_eq_true _

theorem is_full_of_len (h : Supported N) (s : RingBufRef α N) (hwf : Wf s)
    (hl : trueLen s = N) : is_full s = true := by
  unfold is_full len
  have halign := wr_align h s hwf
  rw [hl] at halign
  have hd := wrap_dist_at_N N s.wr_idx.cell s.rd_idx.cell h hwf.1 halign
  have he : Index.wrap_dist s.wr_idx s.rd_idx = N := hd
  simp [he]

theorem lt_of_not_full (h : Supported N) (s : RingBufRef α N) (hwf : Wf s)
    (hle : trueLen s ≤ N) (hf : is_full s = false) : trueLen s < N := by
  rcases Nat.lt_or_ge (trueLen s) N with hlt | hge
  · exact hlt
  · have : trueLen s = N := by omega
    rw [is_full_of_len h s hwf this] at hf
    cases hf

theorem wf_incWr (h : Supported N) (s : RingBufRef α N) (hwf : Wf s) :
    Wf ({ s with wr_idx := s.wr_idx.wrap_inc } : RingBufRef α N) := by
  refine ⟨hwf.1, ?_⟩
  show (Index.wrap_inc s.wr_idx).cell < modBase N
  have : Index.wrap_inc s.wr_idx = Index.wrap_inc (Index.mk s.wr_idx.cell : Index N) := rfl
  rw [this, wrap_inc_cell N h _ hwf.2]
  exact Nat.mod_lt _ (modBase_pos N h)

theorem wf_incRd (h : Supported N) (s : RingBufRef α N) (hwf : Wf s) :
    Wf ({ s with rd_idx := s.rd_idx.wrap_inc } : RingBufRef α N) := by
  refine ⟨?_, hwf.2⟩
  show (Index.wrap_inc s.rd_idx).cell < modBase N
  rw [show Index.wrap_inc s.rd_idx = Index.wrap_inc (Index.mk s.rd_idx.cell : Index N) from rfl]
  rw [wrap_inc_cell N h _ hwf.1]
  exact Nat.mod_lt _ (modBase_pos N h)

theorem trueLen_incWr (h : Supported N) (s : RingBufRef α N) (hwf : Wf s)
    (hl : trueLen s < N) :
    trueLen ({ s with wr_idx := s.wr_idx.wrap_inc } : RingBufRef α N) = trueLen s + 1 := by
  have hm := modBase_pos N h
  have hNb := lt_modBase N h
  have halign := wr_align h s hwf
  have hcell : (Index.wrap_inc s.wr_idx).cell =
      (s.rd_idx.cell + (trueLen s + 1)) % modBase N := by
    rw [show Index.wrap_inc s.wr_idx = Index.wrap_inc (Index.mk s.wr_idx.cell : Index N) from rfl,
      wrap_inc_cell N h _ hwf.2, halign, Nat.mod_add_mod]
    congr 1
  show ((Index.wrap_inc s.wr_idx).cell + modBase N - s.rd_idx.cell) % modBase N = trueLen s + 1
  rw [hcell]
  exact mod_sub_cancel (modBase N) s.rd_idx.cell (trueLen s + 1) hwf.1 (by omega)

theorem trueLen_incRd (h : Supported N) (s : RingBufRef α N) (hwf : Wf s)
    (hl : 0 < trueLen s) :
    trueLen ({ s with rd_idx := s.rd_idx.wrap_inc } : RingBufRef α N) = trueLen s - 1 := by
  have hm := modBase_pos N h
  have hNb := lt_modBase N h
  have hL : trueLen s < modBase N := Nat.mod_lt _ hm
  have hcell : (Index.wrap_inc s.rd_idx).cell = (s.rd_idx.cell + 1) % modBase N := by
    rw [show Index.wrap_inc s.rd_idx = Index.wrap_inc (Index.mk s.rd_idx.cell : Index N) from rfl]
    exact wrap_inc_cell N h _ hwf.1
  have halign := wr_align h s hwf
  have halign2 : s.wr_idx.cell =
      ((s.rd_idx.cell + 1) % modBase N + (trueLen s - 1)) % modBase N := by
    rw [Nat.mod_add_mod, halign]
    congr 1
    omega
  show (s.wr_idx.cell + modBase N - (Index.wrap_inc s.rd_idx).cell) % modBase N = trueLen s - 1
  rw [hcell, halign2]
  exact mod_sub_cancel (modBase N) ((s.rd_idx.cell + 1) % modBase N) (trueLen s - 1)
    (Nat.mod_lt _ hm) (by omega)

theorem getSlot_setSlot_same (s : RingBufRef α N) (v : Nat) (x : α) (hv : v < N) :
    getSlot (setSlot s v x) v = some x := by
  unfold getSlot setSlot
  rw [dif_pos hv]
  simp

theorem getSlot_setSlot_ne (s : RingBufRef α N) (v w : Nat) (x : α) (hne : w ≠ v) :
    getSlot (setSlot s v x) w = getSlot s w := by
  unfold getSlot setSlot
  by_cases hw : w < N
  · rw [dif_pos hw, dif_pos hw]
    simp [hne]
  · rw [dif_neg hw, dif_neg hw]

theorem mask_mod_N (h : Supported N) (v : Nat) (hv : v < modBase N) :
    Index.mask (Index.mk v : Index N) = v % N :=
  mask_eq_mod N h v hv

/-- Distinct offsets below `N` land in distinct masked slots. -/
theorem mask_offset_ne (h : Supported N) (rd j L : Nat) (hj : j < L) (hL : L < N) :
    Index.mask (Index.mk ((rd + j) % modBase N) : Index N) ≠
      Index.mask (Index.mk ((rd + L) % modBase N) : Index N) := by
  have hm := modBase_pos N h
  have hdvd := N_dvd_modBase N h
  rw [mask_mod_N h _ (Nat.mod_lt _ hm), mask_mod_N h _ (Nat.mod_lt _ hm)]
  rw [Nat.mod_mod_of_dvd _ hdvd, Nat.mod_mod_of_dvd _ hdvd]
  intro heq
  have hmodeq : j ≡ L [MOD N] := Nat.ModEq.add_left_cancel (Nat.ModEq.refl rd) heq
  have : j % N = L % N := hmodeq
  rw [Nat.mod_eq_of_lt (by omega), Nat.mod_eq_of_lt hL] at this
  omega

theorem liveOpt_cons (h : Supported N) (s : RingBufRef α N) (hwf : Wf s)
    (hl : 0 < trueLen s) :
    liveOpt s = getSlot s s.rd_idx.mask ::
      liveOpt ({ s with rd_idx := s.rd_idx.wrap_inc } : RingBufRef α N) := by
  have hm := modBase_pos N h
  obtain ⟨L, hL⟩ : ∃ L, trueLen s = L + 1 := ⟨trueLen s - 1, by omega⟩
  unfold liveOpt
  rw [trueLen_incRd h s hwf hl, hL]
  simp only [Nat.add_sub_cancel]
  rw [List.range_succ_eq_map, List.map_cons, List.map_map]
  congr 1
  · have h0 : (s.rd_idx.cell + 0) % modBase N = s.rd_idx.cell := by
      rw [Nat.add_zero]; exact Nat.mod_eq_of_lt hwf.1
    rw [h0]
  · apply List.map_congr_left
    intro j _
    show getSlot s (Index.mask (Index.mk ((s.rd_idx.cell + (j + 1)) % modBase N) : Index N)) = _
    have h1 : (Index.wrap_inc s.rd_idx).cell = (s.rd_idx.cell + 1) % modBase N := by
      rw [show Index.wrap_inc s.rd_idx = Index.wrap_inc (Index.mk s.rd_idx.cell : Index N) from rfl]
      exact wrap_inc_cell N h _ hwf.1
    show _ = getSlot s (Index.mask (Index.mk (((Index.wrap_inc s.rd_idx).cell + j) % modBase N) : Index N))
    rw [h1, Nat.mod_add_mod]
    have h2 : s.rd_idx.cell + (j + 1) = s.rd_idx.cell + 1 + j := by omega
    rw [h2]

theorem not_empty_of_len (h : Supported N) (s : RingBufRef α N) (hwf : Wf s)
    (hl : 0 < trueLen s) : is_empty s = false := by
  rcases Bool.eq_false_or_eq_true (is_empty s) with ht | hf
  · rw [(is_empty_iff h s hwf).mp ht] at hl
    cases hl
  · exact hf

theorem peek_of_len (h : Supported N) (s : RingBufRef α N) (hwf : Wf s)
    (hl : 0 < trueLen s) : peek s = getSlot s s.rd_idx.mask := by
  unfold peek
  rw [not_empty_of_len h s hwf hl]
  rfl

theorem liveOpt_snoc_commit (h : Supported N) (s : RingBufRef α N) (hwf : Wf s)
    (hl : trueLen s < N) :
    liveOpt ({ s with wr_idx := s.wr_idx.wrap_inc } : RingBufRef α N) =
      liveOpt s ++ [getSlot s s.wr_idx.mask] := by
  have halign := wr_align h s hwf
  unfold liveOpt
  rw [trueLen_incWr h s hwf hl, List.range_succ, List.map_append]
  congr 1
  rw [List.map_singleton]
  show [getSlot s (Index.mask (Index.mk ((s.rd_idx.cell + trueLen s) % modBase N) : Index N))] = _
  rw [← halign]

theorem liveOpt_snoc_push (h : Supported N) (s : RingBufRef α N) (hwf : Wf s)
    (hl : trueLen s < N) (v : α) :
    liveOpt ({ setSlot s s.wr_idx.mask v with wr_idx := s.wr_idx.wrap_inc } : RingBufRef α N) =
      liveOpt s ++ [some v] := by
  have halign := wr_align h s hwf
  have hmaskwr : s.wr_idx.mask < N := mask_lt N h s.wr_idx.cell hwf.2
  have ht : trueLen ({ setSlot s s.wr_idx.mask v with wr_idx := s.wr_idx.wrap_inc } :
      RingBufRef α N) = trueLen s + 1 := trueLen_incWr h s hwf hl
  unfold liveOpt
  rw [ht, List.range_succ, List.map_append]
  congr 1
  · simp only [setSlot_rd_idx]
    apply List.map_congr_left
    intro j hj
    rw [List.mem_range] at hj
    show getSlot (setSlot s s.wr_idx.mask v) _ = _
    apply getSlot_setSlot_ne
    have hne := mask_offset_ne h s.rd_idx.cell j (trueLen s) hj hl
    rw [← halign] at hne
    exact hne
  · simp only [setSlot_rd_idx, List.map_singleton]
    show [getSlot (setSlot s s.wr_idx.mask v)
      (Index.mask (Index.mk ((s.rd_idx.cell + trueLen s) % modBase N) : Index N))] = _
    rw [← halign, getSlot_setSlot_same _ _ _ hmaskwr]

end RingBufRef

namespace RingBufRef

theorem runOps_cons_push (s : RingBufRef α N) (v : α) (rest : List (RBOp α)) :
    runOps s (RBOp.push v :: rest) =
      ((runOps (push s v).1 rest).1,
       (if (push s v).2 = none then [v] else []) ++ (runOps (push s v).1 rest).2.1,
       (runOps (push s v).1 rest).2.2) := rfl

theorem runOps_cons_pop (s : RingBufRef α N) (rest : List (RBOp α)) :
    runOps s (RBOp.pop :: rest) =
      ((runOps (pop s).1 rest).1,
       (runOps (pop s).1 rest).2.1,
       (if (pop s).2 = none then (peek s).toList else []) ++ (runOps (pop s).1 rest).2.2) := rfl

theorem inv_new (h : Supported N) : Inv (new : RingBufRef α N) [] := by
  have hm := modBase_pos N h
  refine ⟨⟨hm, hm⟩, ?_, by simp, ?_⟩
  · show (0 + modBase N - 0) % modBase N = 0
    simp
  · show (List.range ((0 + modBase N - 0) % modBase N)).map _ = []
    simp

theorem run_spec (h : Supported N) (ops : List (RBOp α)) :
    ∀ (s : RingBufRef α N) (l : List α), Inv s l →
    ∃ lf, Inv (runOps s ops).1 lf ∧
      (runOps s ops).2.2 ++ lf = l ++ (runOps s ops).2.1 := by
  induction ops with
  | nil => intro s l hInv; exact ⟨l, hInv, by simp [runOps]⟩
  | cons op rest ih =>
    intro s l hInv
    obtain ⟨hwf, hlen, hle, hlive⟩ := hInv
    cases op with
    | push v =>
      rw [runOps_cons_push]
      cases hfull : is_full s with
      | true =>
        have hp : push s v = (s, some ErrCode.BuffFull) := by simp [push, hfull]
        obtain ⟨lf, hIf, heq⟩ := ih s l ⟨hwf, hlen, hle, hlive⟩
        rw [hp]
        exact ⟨lf, hIf, by simpa using heq⟩
      | false =>
        have hlt : trueLen s < N := lt_of_not_full h s hwf (by omega) hfull
        have hp : push s v =
            ({ setSlot s s.wr_idx.mask v with wr_idx := s.wr_idx.wrap_inc }, none) := by
          simp [push, hfull]
        have hInv2 : Inv (push s v).1 (l ++ [v]) := by
          rw [hp]
          refine ⟨wf_incWr h s hwf, ?_, ?_, ?_⟩
          · show trueLen ({ s with wr_idx := s.wr_idx.wrap_inc } : RingBufRef α N) = _
            rw [trueLen_incWr h s hwf hlt]
            simp [hlen]
          · simp; omega
          · rw [liveOpt_snoc_push h s hwf hlt v, hlive]
            simp
        obtain ⟨lf, hIf, heq⟩ := ih (push s v).1 (l ++ [v]) hInv2
        refine ⟨lf, hIf, ?_⟩
        rw [hp] at heq ⊢
        rw [if_pos rfl, heq]
        simp
    | pop =>
      rw [runOps_cons_pop]
      cases hemp : is_empty s with
      | true =>
        have hp : pop s = (s, some ErrCode.BuffEmpty) := by simp [pop, hemp]
        obtain ⟨lf, hIf, heq⟩ := ih s l ⟨hwf, hlen, hle, hlive⟩
        rw [hp]
        exact ⟨lf, hIf, by simpa using heq⟩
      | false =>
        have hpos : 0 < trueLen s := by
          rcases Nat.eq_zero_or_pos (trueLen s) with h0 | hpos
          · rw [(is_empty_iff h s hwf).mpr h0] at hemp; cases hemp
          · exact hpos
        have hlnil : l ≠ [] := by
          intro hnil
          rw [hnil] at hlen
          simp at hlen
          omega
        obtain ⟨a, l2, rfl⟩ : ∃ a l2, l = a :: l2 := by
          cases l with
          | nil => exact absurd rfl hlnil
          | cons a l2 => exact ⟨a, l2, rfl⟩
        have hp : pop s = (({ s with rd_idx := s.rd_idx.wrap_inc } : RingBufRef α N), none) := by
          simp [pop, hemp]
        have hcons := liveOpt_cons h s hwf hpos
        rw [hlive, List.map_cons, List.cons.injEq] at hcons
        have hpk : peek s = some a := by
          rw [peek_of_len h s hwf hpos, ← hcons.1]
        have hInv2 : Inv ({ s with rd_idx := s.rd_idx.wrap_inc } : RingBufRef α N) l2 := by
          refine ⟨wf_incRd h s hwf, ?_, ?_, hcons.2.symm⟩
          · rw [trueLen_incRd h s hwf hpos, hlen]
            simp
          · simp at hle ⊢
            omega
        obtain ⟨lf, hIf, heq⟩ :=
          ih ({ s with rd_idx := s.rd_idx.wrap_inc } : RingBufRef α N) l2 hInv2
        rw [hp]
        refine ⟨lf, hIf, ?_⟩
        rw [if_pos rfl, hpk]
        show ([a] ++ _) ++ lf = _
        rw [List.append_assoc, heq]
        simp

end RingBufRef

theorem index_cell_eq {N : Nat} (i : Index N) (v : Nat) (hv : i.cell = v) :
    i = Index.mk v := by
  rw [← hv]

namespace RingBufRef

theorem iterSC_succ (s : RingBufRef α N) (v : α) (k : Nat) :
    iterSC s v (k + 1) =
      ((iterSC (stage_commit s v).1 v k).1,
       (stage_commit s v).2 && (iterSC (stage_commit s v).1 v k).2) := rfl

theorem iterPop_succ (s : RingBufRef α N) (k : Nat) :
    iterPop s (k + 1) =
      ((iterPop (pop s).1 k).1,
       (pop s).2.isNone && (iterPop (pop s).1 k).2) := rfl

theorem sc_step (h : Supported N) (s : RingBufRef α N) (v : α) (rd d : Nat)
    (hrd : s.rd_idx.cell = rd) (hwr : s.wr_idx.cell = rd + d) (hd : d < N)
    (hnat : rd + d < modBase N) :
    stage_commit s v =
      (({ setSlot s s.wr_idx.mask v with wr_idx := s.wr_idx.wrap_inc } : RingBufRef α N),
        true) ∧
    (Index.wrap_inc s.wr_idx).cell = (rd + d + 1) % modBase N := by
  have hU : modBase N ≤ U32 := modBase_le_U32 N h
  have hdist : len s = d := by
    unfold len
    rw [index_cell_eq s.wr_idx (rd + d) hwr, index_cell_eq s.rd_idx rd hrd]
    rw [wrap_dist_nowrap N (rd + d) rd h (Nat.le_add_right rd d) (by omega) (by omega)]
    omega
  have hfull : is_full s = false := by
    unfold is_full
    rw [hdist]
    simp
    omega
  constructor
  · have halloc : alloc s = some s.wr_idx.mask := by simp [alloc, hfull]
    have hcommit : commit (setSlot s s.wr_idx.mask v) =
        (({ setSlot s s.wr_idx.mask v with wr_idx := s.wr_idx.wrap_inc } : RingBufRef α N),
          none) := by
      unfold commit
      rw [show is_full (setSlot s s.wr_idx.mask v) = false from hfull]
      rfl
    simp [stage_commit, halloc, hcommit]
  · rw [show Index.wrap_inc s.wr_idx =
      Index.wrap_inc (Index.mk s.wr_idx.cell : Index N) from rfl, hwr]
    exact wrap_inc_cell N h (rd + d) hnat

theorem two_mul_le_modBase (N : Nat) (h : Supported N) : 2 * N ≤ modBase N := by
  unfold modBase
  split
  · exact Nat.le_of_lt (supported_two_mul_lt N h)
  · exact Nat.le_refl _

theorem iterSC_ok (h : Supported N) (v : α) :
    ∀ (k : Nat) (s : RingBufRef α N) (rd d : Nat),
      s.rd_idx.cell = rd → s.wr_idx.cell = rd + d → rd ≤ N → d + k ≤ N →
      rd + d < modBase N →
      (iterSC s v k).2 = true ∧
      (iterSC s v k).1.rd_idx.cell = rd ∧
      (iterSC s v k).1.wr_idx.cell = (rd + d + k) % modBase N := by
  intro k
  induction k with
  | zero =>
    intro s rd d hrd hwr hrdN hdk hnat
    refine ⟨rfl, hrd, ?_⟩
    show s.wr_idx.cell = (rd + d + 0) % modBase N
    rw [hwr, Nat.add_zero, Nat.mod_eq_of_lt hnat]
  | succ k ihk =>
    intro s rd d hrd hwr hrdN hdk hnat
    have hd : d < N := by omega
    obtain ⟨hsc, hwcell⟩ := sc_step h s v rd d hrd hwr hd hnat
    rw [iterSC_succ, hsc]
    have hs2rd : (({ setSlot s s.wr_idx.mask v with wr_idx := s.wr_idx.wrap_inc } :
        RingBufRef α N)).rd_idx.cell = rd := hrd
    rcases Nat.eq_zero_or_pos k with rfl | hkpos
    · refine ⟨rfl, hs2rd, ?_⟩
      show (Index.wrap_inc s.wr_idx).cell = _
      rw [hwcell]
    · have h2N : 2 * N ≤ modBase N := two_mul_le_modBase N h
      have hnat2 : rd + (d + 1) < modBase N := by omega
      have hs2wr : (({ setSlot s s.wr_idx.mask v with wr_idx := s.wr_idx.wrap_inc } :
          RingBufRef α N)).wr_idx.cell = rd + (d + 1) := by
        show (Index.wrap_inc s.wr_idx).cell = _
        rw [hwcell, Nat.mod_eq_of_lt (by omega)]
        omega
      obtain ⟨hf, hr, hw⟩ := ihk _ rd (d + 1) hs2rd hs2wr hrdN (by omega) hnat2
      refine ⟨by rw [hf]; rfl, hr, ?_⟩
      rw [hw]
      congr 1
      omega

theorem iterPop_ok (h : Supported N) :
    ∀ (k : Nat) (s : RingBufRef α N) (rd : Nat),
      s.rd_idx.cell = rd → rd + k ≤ s.wr_idx.cell → s.wr_idx.cell < modBase N →
      (iterPop s k).2 = true ∧
      (iterPop s k).1.wr_idx = s.wr_idx ∧
      (iterPop s k).1.rd_idx.cell = rd + k := by
  intro k
  induction k with
  | zero =>
    intro s rd hrd hwk hwm
    exact ⟨rfl, rfl, by rw [Nat.add_zero]; exact hrd⟩
  | succ k ihk =>
    intro s rd hrd hwk hwm
    have hemp : is_empty s = false := by
      unfold is_empty Index.get
      rw [hrd]
      have : rd ≠ s.wr_idx.cell := by omega
      simp [this]
    have hp : pop s = (({ s with rd_idx := s.rd_idx.wrap_inc } : RingBufRef α N), none) := by
      simp [pop, hemp]
    rw [iterPop_succ, hp]
    have hs2rd : (({ s with rd_idx := s.rd_idx.wrap_inc } : RingBufRef α N)).rd_idx.cell
        = rd + 1 := by
      show (Index.wrap_inc s.rd_idx).cell = _
      rw [index_cell_eq s.rd_idx rd hrd, wrap_inc_cell N h rd (by omega),
        Nat.mod_eq_of_lt (by omega)]
    obtain ⟨hf, hw, hr⟩ := ihk _ (rd + 1) hs2rd
      (by show rd + 1 + k ≤ s.wr_idx.cell; omega)
      (by show s.wr_idx.cell < modBase N; exact hwm)
    refine ⟨by rw [hf]; rfl, hw, ?_⟩
    rw [hr]
    omega

end RingBufRef

theorem pow2_two_mul_le (N : Nat) (h : Supported N) (hp : isPow2 N = true) :
    2 * N ≤ 2 ^ 31 := by
  obtain ⟨k, rfl⟩ := (isPow2_spec N (supported_lt_U32 N h)).mp hp
  have hk : k ≤ 30 := by
    by_contra hgt
    have h1 : 2 ^ 31 ≤ 2 ^ k := Nat.pow_le_pow_right (by norm_num) (by omega)
    have h2 := supported_lt (2 ^ k) h
    have h3 : (2:Nat) ^ 31 = 2147483648 := by norm_num
    omega
  have h4 : 2 * 2 ^ k = 2 ^ (k + 1) := by ring
  rw [h4]
  exact Nat.pow_le_pow_right (by norm_num) (by omega)

theorem genWrapInc_eq (N v : Nat) (h : Supported N) (hv : v < 2 * N) :
    genWrapInc N v = (v + 1) % (2 * N) := by
  have hN := supported_pos N h
  have h2N := supported_two_mul_lt N h
  have hval : wrappingAdd v 1 = v + 1 := wrappingAdd_small _ _ (by omega)
  unfold genWrapInc
  rw [hval]
  by_cases hc : 2 * N - 1 < v + 1
  · rw [if_pos hc]
    have hv1 : v + 1 = 2 * N := by omega
    rw [hv1, wrappingSub_of_le _ _ (Nat.le_refl _) h2N, Nat.mod_self, Nat.sub_self]
  · rw [if_neg hc, Nat.mod_eq_of_lt (by omega)]

theorem genWrapDist_eq (N a b : Nat) (h : Supported N) (h31 : 2 * N ≤ 2 ^ 31)
    (ha : a < 2 * N) (hb : b < 2 * N) :
    genWrapDist N a b = (a + 2 * N - b) % (2 * N) := by
  have hN := supported_pos N h
  have hU : 2 * N < U32 := supported_two_mul_lt N h
  have h31n : (2:Nat) ^ 31 = 2147483648 := by norm_num
  have hU32 : U32 = 4294967296 := rfl
  by_cases hba : b ≤ a
  · have hraw : wrappingSub a b = a - b := wrappingSub_of_le a b hba (by omega)
    unfold genWrapDist
    rw [hraw, if_neg (by omega), if_neg (by omega)]
    have h1 : a + 2 * N - b = (a - b) + 2 * N := by omega
    rw [h1, Nat.add_mod_right, Nat.mod_eq_of_lt (by omega)]
  · have hraw : wrappingSub a b = U32 - (b - a) := by
      unfold wrappingSub
      have h1 : a + U32 - b = U32 - (b - a) := by omega
      rw [h1, Nat.mod_eq_of_lt (by omega)]
    unfold genWrapDist
    rw [hraw, if_pos (by omega)]
    unfold wrappingAdd
    have h1 : U32 - (b - a) + 2 * N = (2 * N - (b - a)) + U32 := by omega
    rw [h1, Nat.add_mod_right, Nat.mod_eq_of_lt (by omega)]
    have h2 : a + 2 * N - b = 2 * N - (b - a) := by omega
    rw [h2, Nat.mod_eq_of_lt (by omega)]

theorem genMask_eq (N v : Nat) (hN : 0 < N) (hv : v < 2 * N) :
    genMask N v = v % N := by
  unfold genMask
  by_cases hc : N - 1 < v
  · rw [if_pos hc, Nat.mod_eq_sub_mod (by omega), Nat.mod_eq_of_lt (by omega)]
  · rw [if_neg hc, Nat.mod_eq_of_lt (by omega)]

theorem mod_dist_zero (m a b : Nat) (hm : 0 < m) (ha : a < m) (hb : b < m) :
    ((a + m - b) % m = 0) ↔ a = b := by
  constructor
  · intro h0
    have halign := mod_align m a b ha hb
    rw [h0, Nat.add_zero, Nat.mod_eq_of_lt hb] at halign
    exact halign
  · rintro rfl
    have h1 : a + m - a = m := by omega
    rw [h1, Nat.mod_self]

theorem mod_dist_inc_fst (m a b d : Nat) (ha : a < m) (hb : b < m)
    (hd : (a + m - b) % m = d) (hdm : d + 1 < m) :
    ((a + 1) % m + m - b) % m = d + 1 := by
  have halign : a = (b + d) % m := by rw [← hd]; exact mod_align m a b ha hb
  have h1 : (a + 1) % m = (b + (d + 1)) % m := by
    rw [halign, Nat.mod_add_mod]
    congr 1
  rw [h1]
  exact mod_sub_cancel m b (d + 1) hb hdm

theorem mod_dist_inc_snd (m a b d : Nat) (ha : a < m) (hb : b < m)
    (hd : (a + m - b) % m = d) (hdpos : 0 < d) (hdm : d < m) :
    (a + m - (b + 1) % m) % m = d - 1 := by
  have halign : a = (b + d) % m := by rw [← hd]; exact mod_align m a b ha hb
  have h1 : a = ((b + 1) % m + (d - 1)) % m := by
    rw [halign, Nat.mod_add_mod]
    congr 1
    omega
  rw [h1]
  exact mod_sub_cancel m ((b + 1) % m) (d - 1) (Nat.mod_lt _ (by omega)) (by omega)

theorem len_pow2 {N : Nat} (hp : isPow2 N = true) (s : RingBufRef Unit N) :
    RingBufRef.len s = RingBufRef.trueLen s := by
  unfold RingBufRef.len Index.wrap_dist RingBufRef.trueLen wrappingSub modBase
  simp [hp]

theorem sim_obs (N : Nat) (h : Supported N) (hp : isPow2 N = true)
    (s : RingBufRef Unit N) (g : GenState) (hsim : SimR N s g) (ok : Bool) :
    codeObs s ok = genObs N g ok := by
  obtain ⟨hrc, hwc, hgr, hgw, hle, hgd⟩ := hsim
  have hN := supported_pos N h
  have h31 := pow2_two_mul_le N h hp
  have hmb : modBase N = U32 := by simp [modBase, hp]
  have hwf : RingBufRef.Wf s := ⟨by rw [hmb]; exact hrc, by rw [hmb]; exact hwc⟩
  have hga : g.wr < 2 * N := by rw [hgw]; exact Nat.mod_lt _ (by omega)
  have hgb : g.rd < 2 * N := by rw [hgr]; exact Nat.mod_lt _ (by omega)
  have hlen : RingBufRef.len s = RingBufRef.trueLen s := len_pow2 hp s
  have hglen : genWrapDist N g.wr g.rd = RingBufRef.trueLen s := by
    rw [genWrapDist_eq N _ _ h h31 hga hgb, hgd]
  have hempty : RingBufRef.is_empty s = (g.rd == g.wr) := by
    by_cases hz : RingBufRef.trueLen s = 0
    · rw [(RingBufRef.is_empty_iff h s hwf).mpr hz]
      have heq : g.wr = g.rd :=
        (mod_dist_zero (2 * N) g.wr g.rd (by omega) hga hgb).mp (by rw [hgd]; exact hz)
      rw [heq]
      simp
    · rw [RingBufRef.not_empty_of_len h s hwf (by omega)]
      have hne : ¬ g.rd = g.wr := by
        intro he
        exact hz (by rw [← hgd,
          (mod_dist_zero (2 * N) g.wr g.rd (by omega) hga hgb).mpr he.symm])
      simp [hne]
  have hfull : RingBufRef.is_full s = (genWrapDist N g.wr g.rd == N) := by
    unfold RingBufRef.is_full
    rw [hlen, hglen]
  have hmw : s.wr_idx.mask = genMask N g.wr := by
    rw [show s.wr_idx.mask = Index.mask (Index.mk s.wr_idx.cell : Index N) from rfl,
      mask_eq_mod N h _ (by rw [hmb]; exact hwc), genMask_eq N g.wr hN hga, hgw,
      Nat.mod_mod_of_dvd _ (dvd_mul_left N 2)]
  have hmr : s.rd_idx.mask = genMask N g.rd := by
    rw [show s.rd_idx.mask = Index.mask (Index.mk s.rd_idx.cell : Index N) from rfl,
      mask_eq_mod N h _ (by rw [hmb]; exact hrc), genMask_eq N g.rd hN hgb, hgr,
      Nat.mod_mod_of_dvd _ (dvd_mul_left N 2)]
  unfold codeObs genObs
  rw [hlen, ← hglen, hempty, hfull, hmw, hmr]

theorem codeRun_commit {N : Nat} (s : RingBufRef Unit N) (rest : List COp) :
    codeRun s (COp.commit :: rest) =
      codeObs (RingBufRef.commit s).1 (RingBufRef.commit s).2.isNone ::
        codeRun (RingBufRef.commit s).1 rest := rfl

theorem codeRun_pop {N : Nat} (s : RingBufRef Unit N) (rest : List COp) :
    codeRun s (COp.pop :: rest) =
      codeObs (RingBufRef.pop s).1 (RingBufRef.pop s).2.isNone ::
        codeRun (RingBufRef.pop s).1 rest := rfl

theorem genRun_commit (N : Nat) (g : GenState) (rest : List COp) :
    genRun N g (COp.commit :: rest) =
      if genWrapDist N g.wr g.rd == N then genObs N g false :: genRun N g rest
      else
        genObs N (GenState.mk (genWrapInc N g.wr) g.rd) true ::
          genRun N (GenState.mk (genWrapInc N g.wr) g.rd) rest := rfl

theorem genRun_pop (N : Nat) (g : GenState) (rest : List COp) :
    genRun N g (COp.pop :: rest) =
      if g.rd == g.wr then genObs N g false :: genRun N g rest
      else
        genObs N (GenState.mk g.wr (genWrapInc N g.rd)) true ::
          genRun N (GenState.mk g.wr (genWrapInc N g.rd)) rest := rfl

theorem sim_run (N : Nat) (h : Supported N) (hp : isPow2 N = true) (ops : List COp) :
    ∀ (s : RingBufRef Unit N) (g : GenState), SimR N s g →
      codeRun s ops = genRun N g ops := by
  have hN := supported_pos N h
  have h31 := pow2_two_mul_le N h hp
  have hmb : modBase N = U32 := by simp [modBase, hp]
  have hdvd : (2 * N) ∣ U32 := pow2_two_mul_dvd_U32 N h hp
  induction ops with
  | nil => intro s g hsim; rfl
  | cons op rest ih =>
    intro s g hsim
    obtain ⟨hrc, hwc, hgr, hgw, hle, hgd⟩ := hsim
    have hwf : RingBufRef.Wf s := ⟨by rw [hmb]; exact hrc, by rw [hmb]; exact hwc⟩
    have hga : g.wr < 2 * N := by rw [hgw]; exact Nat.mod_lt _ (by omega)
    have hgb : g.rd < 2 * N := by rw [hgr]; exact Nat.mod_lt _ (by omega)
    have hlen : RingBufRef.len s = RingBufRef.trueLen s := len_pow2 hp s
    have hglen : genWrapDist N g.wr g.rd = RingBufRef.trueLen s := by
      rw [genWrapDist_eq N _ _ h h31 hga hgb, hgd]
    cases op with
    | commit =>
      rw [codeRun_commit, genRun_commit]
      by_cases hfN : RingBufRef.trueLen s = N
      · have hfull : RingBufRef.is_full s = true := RingBufRef.is_full_of_len h s hwf hfN
        have hc : RingBufRef.commit s = (s, some ErrCode.BuffFull) := by
          simp [RingBufRef.commit, hfull]
        rw [hc, if_pos (by rw [hglen, hfN]; exact beq_self_eq_true N)]
        exact congrArg₂ _ (sim_obs N h hp s g ⟨hrc, hwc, hgr, hgw, hle, hgd⟩ false)
          (ih s g ⟨hrc, hwc, hgr, hgw, hle, hgd⟩)
      · have hlt : RingBufRef.trueLen s < N := by omega
        have hfull : RingBufRef.is_full s = false := by
          unfold RingBufRef.is_full
          rw [hlen]
          simp
          omega
        have hc : RingBufRef.commit s =
            (({ s with wr_idx := s.wr_idx.wrap_inc } : RingBufRef Unit N), none) := by
          simp [RingBufRef.commit, hfull]
        rw [hc, if_neg (by rw [hglen]; simp; omega)]
        have hwc2 : (Index.wrap_inc s.wr_idx).cell = (s.wr_idx.cell + 1) % U32 := by
          rw [show Index.wrap_inc s.wr_idx =
            Index.wrap_inc (Index.mk s.wr_idx.cell : Index N) from rfl,
            wrap_inc_cell N h _ (by rw [hmb]; exact hwc), hmb]
        have hsim2 : SimR N ({ s with wr_idx := s.wr_idx.wrap_inc } : RingBufRef Unit N)
            (GenState.mk (genWrapInc N g.wr) g.rd) := by
          refine ⟨hrc, ?_, hgr, ?_, ?_, ?_⟩
          · show (Index.wrap_inc s.wr_idx).cell < U32
            rw [hwc2]
            exact Nat.mod_lt _ (by have := U32_pos; omega)
          · show genWrapInc N g.wr = (Index.wrap_inc s.wr_idx).cell % (2 * N)
            rw [genWrapInc_eq N _ h hga, hwc2, Nat.mod_mod_of_dvd _ hdvd, hgw,
              Nat.mod_add_mod]
          · rw [RingBufRef.trueLen_incWr h s hwf hlt]
            omega
          · show (genWrapInc N g.wr + 2 * N - g.rd) % (2 * N) = _
            rw [RingBufRef.trueLen_incWr h s hwf hlt, genWrapInc_eq N _ h hga]
            exact mod_dist_inc_fst (2 * N) g.wr g.rd (RingBufRef.trueLen s) hga hgb hgd
              (by omega)
        exact congrArg₂ _ (sim_obs N h hp _ _ hsim2 true) (ih _ _ hsim2)
    | pop =>
      rw [codeRun_pop, genRun_pop]
      by_cases hz : RingBufRef.trueLen s = 0
      · have hemp : RingBufRef.is_empty s = true := (RingBufRef.is_empty_iff h s hwf).mpr hz
        have hc : RingBufRef.pop s = (s, some ErrCode.BuffEmpty) := by
          simp [RingBufRef.pop, hemp]
        have heq : g.rd = g.wr :=
          ((mod_dist_zero (2 * N) g.wr g.rd (by omega) hga hgb).mp
            (by rw [hgd]; exact hz)).symm
        rw [hc, if_pos (by rw [heq]; exact beq_self_eq_true g.wr)]
        exact congrArg₂ _ (sim_obs N h hp s g ⟨hrc, hwc, hgr, hgw, hle, hgd⟩ false)
          (ih s g ⟨hrc, hwc, hgr, hgw, hle, hgd⟩)
      · have hpos : 0 < RingBufRef.trueLen s := by omega
        have hemp : RingBufRef.is_empty s = false := RingBufRef.not_empty_of_len h s hwf hpos
        have hc : RingBufRef.pop s =
            (({ s with rd_idx := s.rd_idx.wrap_inc } : RingBufRef Unit N), none) := by
          simp [RingBufRef.pop, hemp]
        have hne : ¬ g.rd = g.wr := by
          intro he
          exact hz (by rw [← hgd,
            (mod_dist_zero (2 * N) g.wr g.rd (by omega) hga hgb).mpr he.symm])
        rw [hc, if_neg (by simp [hne])]
        have hrc2 : (Index.wrap_inc s.rd_idx).cell = (s.rd_idx.cell + 1) % U32 := by
          rw [show Index.wrap_inc s.rd_idx =
            Index.wrap_inc (Index.mk s.rd_idx.cell : Index N) from rfl,
            wrap_inc_cell N h _ (by rw [hmb]; exact hrc), hmb]
        have hsim2 : SimR N ({ s with rd_idx := s.rd_idx.wrap_inc } : RingBufRef Unit N)
            (GenState.mk g.wr (genWrapInc N g.rd)) := by
          refine ⟨?_, hwc, ?_, hgw, ?_, ?_⟩
          · show (Index.wrap_inc s.rd_idx).cell < U32
            rw [hrc2]
            exact Nat.mod_lt _ (by have := U32_pos; omega)
          · show genWrapInc N g.rd = (Index.wrap_inc s.rd_idx).cell % (2 * N)
            rw [genWrapInc_eq N _ h hgb, hrc2, Nat.mod_mod_of_dvd _ hdvd, hgr,
              Nat.mod_add_mod]
          · rw [RingBufRef.trueLen_incRd h s hwf hpos]
            omega
          · show (g.wr + 2 * N - genWrapInc N g.rd) % (2 * N) = _
            rw [RingBufRef.trueLen_incRd h s hwf hpos, genWrapInc_eq N _ h hgb]
            exact mod_dist_inc_snd (2 * N) g.wr g.rd (RingBufRef.trueLen s) hga hgb hgd
              hpos (by omega)
        exact congrArg₂ _ (sim_obs N h hp _ _ hsim2 true) (ih _ _ hsim2)

theorem seedLoop_succ {N : Nat} (r : RingBufRef Nat N) (k : Nat) :
    SharedPool.seedLoop r (k + 1) =
      ((SharedPool.seedStep (SharedPool.seedLoop r k).1 k).1,
        (SharedPool.seedLoop r k).2 &&
          (SharedPool.seedStep (SharedPool.seedLoop r k).1 k).2) := rfl

theorem seedLoop_fresh (N : Nat) (h : Supported N) :
    ∀ k, k ≤ N →
      (SharedPool.seedLoop (RingBufRef.new : RingBufRef Nat N) k).2 = true ∧
      (SharedPool.seedLoop (RingBufRef.new : RingBufRef Nat N) k).1.rd_idx.cell = 0 ∧
      (SharedPool.seedLoop (RingBufRef.new : RingBufRef Nat N) k).1.wr_idx.cell = k ∧
      ∀ j : Nat,
        RingBufRef.getSlot (SharedPool.seedLoop (RingBufRef.new : RingBufRef Nat N) k).1 j
          = if j < k then some j else none := by
  have hNm := lt_modBase N h
  have hU32 := supported_lt_U32 N h
  intro k
  induction k with
  | zero =>
    intro _
    refine ⟨rfl, rfl, rfl, ?_⟩
    intro j
    rw [if_neg (by omega)]
    unfold RingBufRef.getSlot RingBufRef.new
    split <;> rfl
  | succ k ihk =>
    intro hk1
    obtain ⟨hflag, hrd, hwr, hslots⟩ := ihk (by omega)
    have hkN : k < N := by omega
    have hdist : RingBufRef.len (SharedPool.seedLoop
        (RingBufRef.new : RingBufRef Nat N) k).1 = k := by
      unfold RingBufRef.len
      rw [index_cell_eq _ _ hwr, index_cell_eq _ _ hrd,
        wrap_dist_nowrap N k 0 h (Nat.zero_le k) (by omega) (by omega)]
      omega
    have hfull : RingBufRef.is_full (SharedPool.seedLoop
        (RingBufRef.new : RingBufRef Nat N) k).1 = false := by
      unfold RingBufRef.is_full
      rw [hdist]
      simp
      omega
    have hmask : (SharedPool.seedLoop
        (RingBufRef.new : RingBufRef Nat N) k).1.wr_idx.mask = k := by
      rw [show (SharedPool.seedLoop (RingBufRef.new : RingBufRef Nat N) k).1.wr_idx.mask =
        Index.mask (Index.mk ((SharedPool.seedLoop
          (RingBufRef.new : RingBufRef Nat N) k).1.wr_idx.cell) : Index N) from rfl, hwr,
        mask_eq_mod N h k (by omega), Nat.mod_eq_of_lt hkN]
    have halloc : RingBufRef.alloc (SharedPool.seedLoop
        (RingBufRef.new : RingBufRef Nat N) k).1 = some k := by
      unfold RingBufRef.alloc
      rw [hfull, hmask]
      rfl
    have hfull2 : RingBufRef.is_full (RingBufRef.setSlot (SharedPool.seedLoop
        (RingBufRef.new : RingBufRef Nat N) k).1 k k) = false := hfull
    have hcommit : RingBufRef.commit (RingBufRef.setSlot (SharedPool.seedLoop
          (RingBufRef.new : RingBufRef Nat N) k).1 k k) =
        (({ RingBufRef.setSlot (SharedPool.seedLoop
              (RingBufRef.new : RingBufRef Nat N) k).1 k k with
            wr_idx := (SharedPool.seedLoop
              (RingBufRef.new : RingBufRef Nat N) k).1.wr_idx.wrap_inc }
          : RingBufRef Nat N), none) := by
      unfold RingBufRef.commit
      rw [hfull2]
      rfl
    have hstep : SharedPool.seedStep (SharedPool.seedLoop
        (RingBufRef.new : RingBufRef Nat N) k).1 k =
        (({ RingBufRef.setSlot (SharedPool.seedLoop
              (RingBufRef.new : RingBufRef Nat N) k).1 k k with
            wr_idx := (SharedPool.seedLoop
              (RingBufRef.new : RingBufRef Nat N) k).1.wr_idx.wrap_inc }
          : RingBufRef Nat N), true) := by
      unfold SharedPool.seedStep
      rw [halloc]
      show ((RingBufRef.commit (RingBufRef.setSlot (SharedPool.seedLoop
          (RingBufRef.new : RingBufRef Nat N) k).1 k k)).1,
        (RingBufRef.commit (RingBufRef.setSlot (SharedPool.seedLoop
          (RingBufRef.new : RingBufRef Nat N) k).1 k k)).2.isNone) = _
      rw [hcommit]
      rfl
    rw [seedLoop_succ, hstep, hflag]
    refine ⟨rfl, hrd, ?_, ?_⟩
    · show ((SharedPool.seedLoop
        (RingBufRef.new : RingBufRef Nat N) k).1.wr_idx.wrap_inc).cell = k + 1
      rw [index_cell_eq _ _ hwr, wrap_inc_cell N h k (by omega),
        Nat.mod_eq_of_lt (by omega)]
    · intro j
      show RingBufRef.getSlot (RingBufRef.setSlot (SharedPool.seedLoop
        (RingBufRef.new : RingBufRef Nat N) k).1 k k) j = _
      by_cases hj : j = k
      · subst hj
        rw [RingBufRef.getSlot_setSlot_same _ _ _ hkN, if_pos (by omega)]
      · rw [RingBufRef.getSlot_setSlot_ne _ _ _ _ hj, hslots j]
        by_cases hjk : j < k
        · rw [if_pos hjk, if_pos (by omega)]
        · rw [if_neg hjk, if_neg (by omega)]

theorem seeded_trueLen (N : Nat) (h : Supported N) :
    RingBufRef.trueLen (SharedPool.seedLoop (RingBufRef.new : RingBufRef Nat N) N).1 = N := by
  obtain ⟨-, hrd, hwr, -⟩ := seedLoop_fresh N h N (Nat.le_refl N)
  have hNm := lt_modBase N h
  unfold RingBufRef.trueLen
  rw [hwr, hrd, Nat.sub_zero, Nat.add_mod_right, Nat.mod_eq_of_lt hNm]

theorem seeded_liveOpt (N : Nat) (h : Supported N) :
    RingBufRef.liveOpt (SharedPool.seedLoop (RingBufRef.new : RingBufRef Nat N) N).1
      = (List.range N).map some := by
  obtain ⟨-, hrd, -, hslots⟩ := seedLoop_fresh N h N (Nat.le_refl N)
  have hNm := lt_modBase N h
  unfold RingBufRef.liveOpt
  rw [seeded_trueLen N h]
  apply List.map_congr_left
  intro j hj
  rw [List.mem_range] at hj
  have h0 : ((SharedPool.seedLoop (RingBufRef.new : RingBufRef Nat N) N).1.rd_idx.cell + j)
      % modBase N = j := by
    rw [hrd, Nat.zero_add]
    exact Nat.mod_eq_of_lt (by omega)
  rw [h0]
  have hmask : Index.mask (Index.mk j : Index N) = j := by
    rw [mask_eq_mod N h j (by omega), Nat.mod_eq_of_lt hj]
  rw [hmask, hslots j, if_pos hj]

theorem peek_some_pos (h : Supported N) {α : Type} (r : RingBufRef α N)
    (hwf : RingBufRef.Wf r) (x : α) (hpeek : RingBufRef.peek r = some x) :
    0 < RingBufRef.trueLen r := by
  rcases Nat.eq_zero_or_pos (RingBufRef.trueLen r) with h0 | hpos
  · have hemp := (RingBufRef.is_empty_iff h r hwf).mpr h0
    unfold RingBufRef.peek at hpeek
    rw [hemp] at hpeek
    simp at hpeek
  · exact hpos

theorem peek_getSlot (h : Supported N) {α : Type} (r : RingBufRef α N)
    (hwf : RingBufRef.Wf r) (x : α) (hpeek : RingBufRef.peek r = some x) :
    RingBufRef.getSlot r r.rd_idx.mask = some x := by
  rw [← RingBufRef.peek_of_len h r hwf (peek_some_pos h r hwf x hpeek)]
  exact hpeek

theorem liveOpt_setSlot_wr (h : Supported N) (r : RingBufRef Nat N)
    (hwf : RingBufRef.Wf r) (hlt : RingBufRef.trueLen r < N) (v : Nat) :
    RingBufRef.liveOpt (RingBufRef.setSlot r r.wr_idx.mask v) = RingBufRef.liveOpt r := by
  have halign := RingBufRef.wr_align h r hwf
  show (List.range (RingBufRef.trueLen r)).map _ = (List.range (RingBufRef.trueLen r)).map _
  apply List.map_congr_left
  intro j hj
  rw [List.mem_range] at hj
  show RingBufRef.getSlot (RingBufRef.setSlot r r.wr_idx.mask v) _ = _
  apply RingBufRef.getSlot_setSlot_ne
  have hne := RingBufRef.mask_offset_ne h r.rd_idx.cell j (RingBufRef.trueLen r) hj hlt
  rw [← halign] at hne
  exact hne

theorem countIdx_setSlot_wr (h : Supported N) (r : RingBufRef Nat N)
    (hwf : RingBufRef.Wf r) (hlt : RingBufRef.trueLen r < N) (v i : Nat) :
    countIdx (RingBufRef.setSlot r r.wr_idx.mask v) i = countIdx r i := by
  unfold countIdx
  rw [liveOpt_setSlot_wr h r hwf hlt v]

theorem countIdx_pop (h : Supported N) (r : RingBufRef Nat N)
    (hwf : RingBufRef.Wf r) (x : Nat) (hpeek : RingBufRef.peek r = some x) (i : Nat) :
    countIdx r i =
      countIdx ({ r with rd_idx := r.rd_idx.wrap_inc } : RingBufRef Nat N) i
        + (if x = i then 1 else 0) := by
  have hpos := peek_some_pos h r hwf x hpeek
  unfold countIdx
  rw [RingBufRef.liveOpt_cons h r hwf hpos, peek_getSlot h r hwf x hpeek]
  rw [List.count_cons]
  by_cases hxi : x = i
  · subst hxi
    simp
  · simp [hxi]

theorem countIdx_commit_setSlot (h : Supported N) (r : RingBufRef Nat N)
    (hwf : RingBufRef.Wf r) (hlt : RingBufRef.trueLen r < N) (v i : Nat) :
    countIdx ({ RingBufRef.setSlot r r.wr_idx.mask v with
        wr_idx := r.wr_idx.wrap_inc } : RingBufRef Nat N) i
      = countIdx r i + (if v = i then 1 else 0) := by
  unfold countIdx
  rw [RingBufRef.liveOpt_snoc_push h r hwf hlt v, List.count_append]
  congr 1
  by_cases hvi : v = i
  · subst hvi
    simp
  · rw [if_neg hvi, List.count_eq_zero]
    simp
    omega

theorem countIdx_commit (h : Supported N) (r : RingBufRef Nat N)
    (hwf : RingBufRef.Wf r) (hlt : RingBufRef.trueLen r < N) (v i : Nat)
    (hslot : RingBufRef.getSlot r r.wr_idx.mask = some v) :
    countIdx ({ r with wr_idx := r.wr_idx.wrap_inc } : RingBufRef Nat N) i
      = countIdx r i + (if v = i then 1 else 0) := by
  unfold countIdx
  rw [RingBufRef.liveOpt_snoc_commit h r hwf hlt, hslot, List.count_append]
  congr 1
  by_cases hvi : v = i
  · subst hvi
    simp
  · rw [if_neg hvi, List.count_eq_zero]
    simp
    omega

theorem alloc_some_mask {α : Type} (r : RingBufRef α N)
    (hfull : RingBufRef.is_full r = false) :
    RingBufRef.alloc r = some r.wr_idx.mask := by
  unfold RingBufRef.alloc
  rw [hfull]
  rfl

theorem alloc_cases {α : Type} (r : RingBufRef α N) (slot : Nat)
    (halloc : RingBufRef.alloc r = some slot) :
    RingBufRef.is_full r = false ∧ slot = r.wr_idx.mask := by
  unfold RingBufRef.alloc at halloc
  cases hfull : RingBufRef.is_full r with
  | true => rw [hfull] at halloc; simp at halloc
  | false =>
    rw [hfull] at halloc
    simp at halloc
    exact ⟨rfl, halloc.symm⟩

theorem peek_not_empty {α : Type} (r : RingBufRef α N) (x : α)
    (hpeek : RingBufRef.peek r = some x) : RingBufRef.is_empty r = false := by
  unfold RingBufRef.peek at hpeek
  cases hemp : RingBufRef.is_empty r with
  | true => rw [hemp] at hpeek; simp at hpeek
  | false => rfl

theorem pop_not_empty {α : Type} (r : RingBufRef α N)
    (hemp : RingBufRef.is_empty r = false) :
    RingBufRef.pop r = (({ r with rd_idx := r.rd_idx.wrap_inc } : RingBufRef α N), none) := by
  unfold RingBufRef.pop
  rw [hemp]
  rfl

theorem commit_not_full {α : Type} (r : RingBufRef α N)
    (hfull : RingBufRef.is_full r = false) :
    RingBufRef.commit r =
      (({ r with wr_idx := r.wr_idx.wrap_inc } : RingBufRef α N), none) := by
  unfold RingBufRef.commit
  rw [hfull]
  rfl

theorem prod_stage_not_full (p : SharedPool N)
    (hfull : RingBufRef.is_full p.alloc_rbuf.ringbuf_ref = false) :
    SharedPool.prod_stage p =
      (SharedPool.setAllocRbr p (RingBufRef.setSlot p.alloc_rbuf.ringbuf_ref
        p.alloc_rbuf.ringbuf_ref.wr_idx.mask N), true) := by
  unfold SharedPool.prod_stage
  rw [alloc_some_mask _ hfull]

theorem get_pool_item_valid (p : SharedPool N) (i : Nat)
    (hpeek : RingBufRef.peek p.return_rbuf.ringbuf_ref = some i)
    (v : Nat) (p1 : SharedPool N)
    (hgpi : SharedPool.get_pool_item p = some (v, p1)) :
    ∃ hi : i < N, v = i ∧
      SharedSingleton.is_vacant (p.pool ⟨i, hi⟩) = true ∧
      p1 = SharedPool.setReturnRbr p (RingBufRef.pop p.return_rbuf.ringbuf_ref).1 := by
  unfold SharedPool.get_pool_item at hgpi
  split at hgpi
  next pidx hp =>
    rw [hpeek] at hp
    injection hp with hp
    subst hp
    split at hgpi
    next hiN =>
      split at hgpi
      next hvac =>
        injection hgpi with hgpi
        rw [Prod.mk.injEq] at hgpi
        exact ⟨hiN, hgpi.1.symm, hvac, hgpi.2.symm⟩
      next hvac => exact Option.noConfusion hgpi
    next hiN => exact Option.noConfusion hgpi
  next hp =>
    rw [hpeek] at hp
    exact Option.noConfusion hp

theorem swp_ok_decomp (p : SharedPool N) (i : Nat)
    (hpeek : RingBufRef.peek p.return_rbuf.ringbuf_ref = some i)
    (hres : (SharedPool.stage_with_payload p).map Prod.snd = some none) :
    ∃ hi : i < N,
      SharedSingleton.is_vacant (p.pool ⟨i, hi⟩) = true ∧
      RingBufRef.is_full p.alloc_rbuf.ringbuf_ref = false ∧
      swpState p = SharedPool.setAllocRbr
        (SharedPool.setReturnRbr p (RingBufRef.pop p.return_rbuf.ringbuf_ref).1)
        (RingBufRef.setSlot p.alloc_rbuf.ringbuf_ref
          p.alloc_rbuf.ringbuf_ref.wr_idx.mask i) := by
  have key : ∀ res, SharedPool.stage_with_payload p = res →
      res.map Prod.snd = some none →
      ∃ hi : i < N,
        SharedSingleton.is_vacant (p.pool ⟨i, hi⟩) = true ∧
        RingBufRef.is_full p.alloc_rbuf.ringbuf_ref = false ∧
        swpState p = SharedPool.setAllocRbr
          (SharedPool.setReturnRbr p (RingBufRef.pop p.return_rbuf.ringbuf_ref).1)
          (RingBufRef.setSlot p.alloc_rbuf.ringbuf_ref
            p.alloc_rbuf.ringbuf_ref.wr_idx.mask i) := by
    intro res horig hmap
    have hr := horig
    unfold SharedPool.stage_with_payload at hr
    split at hr
    next hgpi =>
      rw [← hr] at hmap
      simp at hmap
    next v p1 hgpi =>
      obtain ⟨hi, hvi, hvac, hp1⟩ := get_pool_item_valid p i hpeek v p1 hgpi
      subst hvi
      subst hp1
      split at hr
      next hvN =>
        split at hr
        next slot halloc =>
          obtain ⟨hfull, hslot⟩ := alloc_cases _ slot halloc
          refine ⟨hi, hvac, hfull, ?_⟩
          unfold swpState
          rw [horig, ← hr, hslot]
          rfl
        next halloc =>
          rw [← hr] at hmap
          simp at hmap
      next hvN => exact absurd hi hvN
  exact key _ rfl hres

theorem swp_leak_decomp (p : SharedPool N) (i : Nat)
    (hpeek : RingBufRef.peek p.return_rbuf.ringbuf_ref = some i)
    (hres : (SharedPool.stage_with_payload p).map Prod.snd =
      some (some SharedPoolError.AllocBufFull)) :
    ∃ hi : i < N,
      SharedSingleton.is_vacant (p.pool ⟨i, hi⟩) = true ∧
      RingBufRef.is_full p.alloc_rbuf.ringbuf_ref = true ∧
      swpState p = SharedPool.setReturnRbr p (RingBufRef.pop p.return_rbuf.ringbuf_ref).1 := by
  have key : ∀ res, SharedPool.stage_with_payload p = res →
      res.map Prod.snd = some (some SharedPoolError.AllocBufFull) →
      ∃ hi : i < N,
        SharedSingleton.is_vacant (p.pool ⟨i, hi⟩) = true ∧
        RingBufRef.is_full p.alloc_rbuf.ringbuf_ref = true ∧
        swpState p = SharedPool.setReturnRbr p
          (RingBufRef.pop p.return_rbuf.ringbuf_ref).1 := by
    intro res horig hmap
    have hr := horig
    unfold SharedPool.stage_with_payload at hr
    split at hr
    next hgpi =>
      rw [← hr] at hmap
      simp at hmap
    next v p1 hgpi =>
      obtain ⟨hi, hvi, hvac, hp1⟩ := get_pool_item_valid p i hpeek v p1 hgpi
      subst hvi
      subst hp1
      split at hr
      next hvN =>
        split at hr
        next slot halloc =>
          rw [← hr] at hmap
          simp at hmap
        next halloc =>
          refine ⟨hi, hvac, ?_, ?_⟩
          · unfold RingBufRef.alloc at halloc
            split at halloc
            next hfull => exact hfull
            next hfull => exact Option.noConfusion halloc
          · unfold swpState
            rw [horig, ← hr]
      next hvN => exact absurd hi hvN
  exact key _ rfl hres

theorem prod_commit_ok_state (p : SharedPool N) (v : Nat)
    (hslot : RingBufRef.getSlot p.alloc_rbuf.ringbuf_ref
      p.alloc_rbuf.ringbuf_ref.wr_idx.mask = some v)
    (hok : (SharedPool.prod_commit p).2 = none) :
    RingBufRef.is_full p.alloc_rbuf.ringbuf_ref = false ∧
    (SharedPool.prod_commit p).1 = SharedPool.setAllocRbr p
      ({ p.alloc_rbuf.ringbuf_ref with
        wr_idx := p.alloc_rbuf.ringbuf_ref.wr_idx.wrap_inc } : RingBufRef Nat N) := by
  have key : ∀ pr, SharedPool.prod_commit p = pr → pr.2 = none →
      RingBufRef.is_full p.alloc_rbuf.ringbuf_ref = false ∧
      pr.1 = SharedPool.setAllocRbr p
        ({ p.alloc_rbuf.ringbuf_ref with
          wr_idx := p.alloc_rbuf.ringbuf_ref.wr_idx.wrap_inc } : RingBufRef Nat N) := by
    intro pr hpr h2
    unfold SharedPool.prod_commit at hpr
    split at hpr
    next s halloc =>
      obtain ⟨hfull, -⟩ := alloc_cases _ s halloc
      split at hpr
      next pidx hg =>
        rw [hslot] at hg
        injection hg with hg
        subst hg
        split at hpr
        next hvN =>
          split at hpr
          next hread =>
            refine ⟨hfull, ?_⟩
            rw [← hpr, commit_not_full _ hfull]
          next hread =>
            rw [← hpr] at h2
            simp at h2
        next hvN =>
          refine ⟨hfull, ?_⟩
          rw [← hpr, commit_not_full _ hfull]
      next hg =>
        rw [hslot] at hg
        exact Option.noConfusion hg
    next halloc =>
      rw [← hpr] at h2
      simp at h2
  exact key _ rfl hok

theorem cons_pop_state (p : SharedPool N) (m : Nat)
    (hpeek : SharedPool.cons_peek p = some m) :
    (SharedPool.cons_pop p).1 = SharedPool.setAllocRbr p
      ({ p.alloc_rbuf.ringbuf_ref with
        rd_idx := p.alloc_rbuf.ringbuf_ref.rd_idx.wrap_inc } : RingBufRef Nat N) := by
  unfold SharedPool.cons_pop
  rw [pop_not_empty _ (peek_not_empty _ m
    (show RingBufRef.peek p.alloc_rbuf.ringbuf_ref = some m from hpeek))]

theorem enq_ok_decomp (p : SharedPool N) (i : Nat)
    (hres : (SharedPool.enqueue_return p i).map Prod.snd = some none) :
    ∃ hi : i < N,
      SharedSingleton.is_vacant (p.pool ⟨i, hi⟩) = true ∧
      RingBufRef.is_full p.return_rbuf.ringbuf_ref = false ∧
      enqState p i = SharedPool.setReturnRbr p
        ({ RingBufRef.setSlot p.return_rbuf.ringbuf_ref
            p.return_rbuf.ringbuf_ref.wr_idx.mask i with
          wr_idx := p.return_rbuf.ringbuf_ref.wr_idx.wrap_inc } : RingBufRef Nat N) := by
  have key : ∀ res, SharedPool.enqueue_return p i = res →
      res.map Prod.snd = some none →
      ∃ hi : i < N,
        SharedSingleton.is_vacant (p.pool ⟨i, hi⟩) = true ∧
        RingBufRef.is_full p.return_rbuf.ringbuf_ref = false ∧
        enqState p i = SharedPool.setReturnRbr p
          ({ RingBufRef.setSlot p.return_rbuf.ringbuf_ref
              p.return_rbuf.ringbuf_ref.wr_idx.mask i with
            wr_idx := p.return_rbuf.ringbuf_ref.wr_idx.wrap_inc } : RingBufRef Nat N) := by
    intro res horig hmap
    have hr := horig
    unfold SharedPool.enqueue_return at hr
    split at hr
    next slot halloc =>
      obtain ⟨hfull, hslot⟩ := alloc_cases _ slot halloc
      split at hr
      next hiN =>
        split at hr
        next hvac =>
          refine ⟨hiN, hvac, hfull, ?_⟩
          rw [hslot, commit_not_full _
            (show RingBufRef.is_full (RingBufRef.setSlot p.return_rbuf.ringbuf_ref
              p.return_rbuf.ringbuf_ref.wr_idx.mask i) = false from hfull)] at hr
          unfold enqState
          rw [horig, ← hr]
          rfl
        next hvac =>
          rw [← hr] at hmap
          simp at hmap
      next hiN =>
        rw [← hr] at hmap
        simp at hmap
    next halloc =>
      rw [← hr] at hmap
      simp at hmap
  exact key _ rfl hres

theorem try_write_ok (p : SharedPool N) (i : Fin N)
    (hok : (SharedPool.payload_try_write p i).2 = true) :
    p.pool i = Owner.Vacant ∧
    (SharedPool.payload_try_write p i).1 = SharedPool.setPool p i Owner.Producer := by
  unfold SharedPool.payload_try_write at hok ⊢
  cases howner : p.pool i
  · exact ⟨rfl, rfl⟩
  · rw [howner] at hok
    exact Bool.noConfusion hok
  · rw [howner] at hok
    exact Bool.noConfusion hok

theorem write_done_ok (p : SharedPool N) (i : Fin N)
    (hok : (SharedPool.payload_write_done p i).2 = none) :
    p.pool i = Owner.Producer ∧
    (SharedPool.payload_write_done p i).1 = SharedPool.setPool p i Owner.Consumer := by
  unfold SharedPool.payload_write_done at hok ⊢
  unfold SharedSingleton.write_done at hok ⊢
  cases howner : p.pool i
  · rw [howner] at hok
    exact Option.noConfusion hok
  · exact ⟨rfl, rfl⟩
  · rw [howner] at hok
    exact Option.noConfusion hok

theorem read_done_ok (p : SharedPool N) (i : Fin N)
    (hok : (SharedPool.payload_read_done p i).2 = none) :
    p.pool i = Owner.Consumer ∧
    (SharedPool.payload_read_done p i).1 = SharedPool.setPool p i Owner.Vacant := by
  unfold SharedPool.payload_read_done at hok ⊢
  unfold SharedSingleton.read_done at hok ⊢
  cases howner : p.pool i
  · rw [howner] at hok
    exact Option.noConfusion hok
  · rw [howner] at hok
    exact Option.noConfusion hok
  · exact ⟨rfl, rfl⟩

theorem stagedTerm_clear (N : Nat) (g : GPool N) (hok : stagedClear g)
    (i : Nat) (hi : i < N) : stagedTerm g i = 0 := by
  unfold stagedTerm
  rcases hok with h0 | h0 <;> rw [h0]
  · simp
  · rw [if_neg (by simp only [Option.some.injEq]; omega)]

theorem count_range_one (n i : Nat) (hi : i < n) : (List.range n).count i = 1 := by
  induction n with
  | zero => omega
  | succ n ih =>
    rw [List.range_succ, List.count_append]
    by_cases hin : i < n
    · rw [ih hin]
      have : i ≠ n := by omega
      simp [this]
    · have : i = n := by omega
      subst this
      rw [List.count_eq_zero.mpr (by simp)]
      simp

theorem count_map_some (l : List Nat) (i : Nat) :
    (l.map some).count (some i) = l.count i := by
  induction l with
  | nil => rfl
  | cons a l ih =>
    rw [List.map_cons, List.count_cons, List.count_cons, ih]
    by_cases hai : a = i
    · subst hai
      simp
    · simp [hai]

theorem invg_init (N : Nat) (h : Supported N) : INVG N (initG N) := by
  have hA : (initG N).pool.alloc_rbuf.ringbuf_ref = (RingBufRef.new : RingBufRef Nat N) := rfl
  have hR : (initG N).pool.return_rbuf.ringbuf_ref =
      (SharedPool.seedLoop (RingBufRef.new : RingBufRef Nat N) N).1 := rfl
  have hm := modBase_pos N h
  have hNm := lt_modBase N h
  obtain ⟨-, hrd, hwr, -⟩ := seedLoop_fresh N h N (Nat.le_refl N)
  have hwfA : RingBufRef.Wf (RingBufRef.new : RingBufRef Nat N) := ⟨hm, hm⟩
  have hlenA : RingBufRef.trueLen (RingBufRef.new : RingBufRef Nat N) = 0 := by
    unfold RingBufRef.trueLen RingBufRef.new
    simp
  refine ⟨?_, ?_, ?_, ?_⟩
  · rw [show RingOk N (initG N).pool.alloc_rbuf.ringbuf_ref =
      RingOk N (RingBufRef.new : RingBufRef Nat N) from rfl]
    exact ⟨hwfA, by omega⟩
  · rw [show RingOk N (initG N).pool.return_rbuf.ringbuf_ref =
      RingOk N (SharedPool.seedLoop (RingBufRef.new : RingBufRef Nat N) N).1 from rfl]
    refine ⟨⟨?_, ?_⟩, ?_⟩
    · rw [hrd]; omega
    · rw [hwr]; omega
    · rw [seeded_trueLen N h]
  · intro v hv
    exact Option.noConfusion hv
  · intro i hi
    show countIdx (RingBufRef.new : RingBufRef Nat N) i + List.count i [] +
      countIdx (SharedPool.seedLoop (RingBufRef.new : RingBufRef Nat N) N).1 i +
      stagedTerm (initG N) i + List.count i [] = 1
    have h1 : countIdx (RingBufRef.new : RingBufRef Nat N) i = 0 := by
      unfold countIdx RingBufRef.liveOpt
      rw [hlenA]
      rfl
    have h2 : countIdx (SharedPool.seedLoop (RingBufRef.new : RingBufRef Nat N) N).1 i = 1 := by
      unfold countIdx
      rw [seeded_liveOpt N h, count_map_some (List.range N) i, count_range_one N i hi]
    have h3 : stagedTerm (initG N) i = 0 := rfl
    rw [h1, h2, h3]
    rfl

theorem invg_stage_norm (N : Nat) (h : Supported N) (g : GPool N)
    (hok : stagedClear g)
    (hfull : RingBufRef.is_full g.pool.alloc_rbuf.ringbuf_ref = false)
    (hinv : INVG N g) :
    INVG N ⟨(SharedPool.prod_stage g.pool).1, some N, g.flight, g.leaked⟩ := by
  obtain ⟨⟨hwfA, hlenA⟩, hRok, hstg, hsum⟩ := hinv
  have hltA := RingBufRef.lt_of_not_full h _ hwfA hlenA hfull
  have hmasklt : g.pool.alloc_rbuf.ringbuf_ref.wr_idx.mask < N :=
    mask_lt N h g.pool.alloc_rbuf.ringbuf_ref.wr_idx.cell hwfA.2
  have h1 : (SharedPool.prod_stage g.pool).1 =
      SharedPool.setAllocRbr g.pool (RingBufRef.setSlot g.pool.alloc_rbuf.ringbuf_ref
        g.pool.alloc_rbuf.ringbuf_ref.wr_idx.mask N) := by
    rw [prod_stage_not_full g.pool hfull]
  refine ⟨?_, ?_, ?_, ?_⟩
  · rw [h1]
    exact ⟨hwfA, hlenA⟩
  · rw [h1]
    exact hRok
  · intro v hv
    injection hv with hv
    subst hv
    rw [h1]
    refine ⟨hltA, ?_⟩
    exact RingBufRef.getSlot_setSlot_same _ _ _ hmasklt
  · intro i hi
    rw [h1]
    show countIdx (RingBufRef.setSlot g.pool.alloc_rbuf.ringbuf_ref
        g.pool.alloc_rbuf.ringbuf_ref.wr_idx.mask N) i + List.count i g.flight +
      countIdx g.pool.return_rbuf.ringbuf_ref i +
      (if (some N : Option Nat) = some i then 1 else 0) + List.count i g.leaked = 1
    rw [countIdx_setSlot_wr h _ hwfA hltA N i,
      if_neg (by simp only [Option.some.injEq]; omega)]
    have hs := hsum i hi
    show countIdx g.pool.alloc_rbuf.ringbuf_ref i + List.count i g.flight +
      countIdx g.pool.return_rbuf.ringbuf_ref i + 0 + List.count i g.leaked = 1
    have he : ghostSum g i = countIdx g.pool.alloc_rbuf.ringbuf_ref i +
        List.count i g.flight + countIdx g.pool.return_rbuf.ringbuf_ref i +
        stagedTerm g i + List.count i g.leaked := rfl
    rw [he, stagedTerm_clear N g hok i hi] at hs
    omega

theorem invg_stage_payload_ok (N : Nat) (h : Supported N) (g : GPool N) (i : Nat)
    (hok : stagedClear g)
    (hpeek : RingBufRef.peek g.pool.return_rbuf.ringbuf_ref = some i)
    (hres : (SharedPool.stage_with_payload g.pool).map Prod.snd = some none)
    (hinv : INVG N g) :
    INVG N ⟨swpState g.pool, some i, g.flight, g.leaked⟩ := by
  obtain ⟨⟨hwfA, hlenA⟩, ⟨hwfR, hlenR⟩, hstg, hsum⟩ := hinv
  obtain ⟨hi, hvac, hfullA, hstate⟩ := swp_ok_decomp g.pool i hpeek hres
  have hltA := RingBufRef.lt_of_not_full h _ hwfA hlenA hfullA
  have hmasklt : g.pool.alloc_rbuf.ringbuf_ref.wr_idx.mask < N :=
    mask_lt N h g.pool.alloc_rbuf.ringbuf_ref.wr_idx.cell hwfA.2
  have hpos := peek_some_pos h _ hwfR i hpeek
  have hpop : (RingBufRef.pop g.pool.return_rbuf.ringbuf_ref).1 =
      incRd g.pool.return_rbuf.ringbuf_ref := by
    rw [pop_not_empty _ (peek_not_empty _ i hpeek)]
    rfl
  have hwfR2 : RingBufRef.Wf (incRd g.pool.return_rbuf.ringbuf_ref) :=
    RingBufRef.wf_incRd h _ hwfR
  have hlen2 : RingBufRef.trueLen (incRd g.pool.return_rbuf.ringbuf_ref) =
      RingBufRef.trueLen g.pool.return_rbuf.ringbuf_ref - 1 :=
    RingBufRef.trueLen_incRd h _ hwfR hpos
  refine ⟨?_, ?_, ?_, ?_⟩
  · rw [hstate]
    exact ⟨hwfA, hlenA⟩
  · rw [hstate, hpop]
    refine ⟨hwfR2, ?_⟩
    show RingBufRef.trueLen (incRd g.pool.return_rbuf.ringbuf_ref) ≤ N
    rw [hlen2]
    omega
  · intro v hv
    injection hv with hv
    subst hv
    rw [hstate]
    refine ⟨hltA, ?_⟩
    exact RingBufRef.getSlot_setSlot_same _ _ _ hmasklt
  · intro j hj
    rw [hstate, hpop]
    show countIdx (RingBufRef.setSlot g.pool.alloc_rbuf.ringbuf_ref
        g.pool.alloc_rbuf.ringbuf_ref.wr_idx.mask i) j + List.count j g.flight +
      countIdx (incRd g.pool.return_rbuf.ringbuf_ref) j +
      (if (some i : Option Nat) = some j then 1 else 0) + List.count j g.leaked = 1
    rw [countIdx_setSlot_wr h _ hwfA hltA i j]
    have hcpop : countIdx g.pool.return_rbuf.ringbuf_ref j =
        countIdx (incRd g.pool.return_rbuf.ringbuf_ref) j + (if i = j then 1 else 0) :=
      countIdx_pop h _ hwfR i hpeek j
    have hs := hsum j hj
    have he : ghostSum g j = countIdx g.pool.alloc_rbuf.ringbuf_ref j +
        List.count j g.flight + countIdx g.pool.return_rbuf.ringbuf_ref j +
        stagedTerm g j + List.count j g.leaked := rfl
    rw [he, stagedTerm_clear N g hok j hj] at hs
    by_cases hij : i = j
    · rw [if_pos (by rw [hij])]
      rw [if_pos hij] at hcpop
      omega
    · rw [if_neg (by simp only [Option.some.injEq]; exact hij)]
      rw [if_neg hij] at hcpop
      omega

theorem invg_stage_payload_leak (N : Nat) (h : Supported N) (g : GPool N) (i : Nat)
    (hok : stagedClear g)
    (hpeek : RingBufRef.peek g.pool.return_rbuf.ringbuf_ref = some i)
    (hres : (SharedPool.stage_with_payload g.pool).map Prod.snd =
      some (some SharedPoolError.AllocBufFull))
    (hinv : INVG N g) :
    INVG N ⟨swpState g.pool, g.staged, g.flight, i :: g.leaked⟩ := by
  obtain ⟨⟨hwfA, hlenA⟩, ⟨hwfR, hlenR⟩, hstg, hsum⟩ := hinv
  obtain ⟨hi, hvac, hfullA, hstate⟩ := swp_leak_decomp g.pool i hpeek hres
  have hpos := peek_some_pos h _ hwfR i hpeek
  have hpop : (RingBufRef.pop g.pool.return_rbuf.ringbuf_ref).1 =
      incRd g.pool.return_rbuf.ringbuf_ref := by
    rw [pop_not_empty _ (peek_not_empty _ i hpeek)]
    rfl
  have hwfR2 : RingBufRef.Wf (incRd g.pool.return_rbuf.ringbuf_ref) :=
    RingBufRef.wf_incRd h _ hwfR
  have hlen2 : RingBufRef.trueLen (incRd g.pool.return_rbuf.ringbuf_ref) =
      RingBufRef.trueLen g.pool.return_rbuf.ringbuf_ref - 1 :=
    RingBufRef.trueLen_incRd h _ hwfR hpos
  refine ⟨?_, ?_, ?_, ?_⟩
  · rw [hstate]
    exact ⟨hwfA, hlenA⟩
  · rw [hstate, hpop]
    refine ⟨hwfR2, ?_⟩
    show RingBufRef.trueLen (incRd g.pool.return_rbuf.ringbuf_ref) ≤ N
    rw [hlen2]
    omega
  · intro v hv
    obtain ⟨hlt, hslot⟩ := hstg v hv
    rw [hstate]
    exact ⟨hlt, hslot⟩
  · intro j hj
    rw [hstate, hpop]
    show countIdx g.pool.alloc_rbuf.ringbuf_ref j + List.count j g.flight +
      countIdx (incRd g.pool.return_rbuf.ringbuf_ref) j +
      stagedTerm g j + List.count j (i :: g.leaked) = 1
    have hcpop : countIdx g.pool.return_rbuf.ringbuf_ref j =
        countIdx (incRd g.pool.return_rbuf.ringbuf_ref) j + (if i = j then 1 else 0) :=
      countIdx_pop h _ hwfR i hpeek j
    have hs := hsum j hj
    have he : ghostSum g j = countIdx g.pool.alloc_rbuf.ringbuf_ref j +
        List.count j g.flight + countIdx g.pool.return_rbuf.ringbuf_ref j +
        stagedTerm g j + List.count j g.leaked := rfl
    rw [he] at hs
    rw [List.count_cons]
    by_cases hij : i = j
    · rw [if_pos hij] at hcpop
      rw [if_pos (by simp only [beq_iff_eq]; omega)]
      omega
    · rw [if_neg hij] at hcpop
      rw [if_neg (by simp only [beq_iff_eq]; omega)]
      omega

theorem invg_commit_ok (N : Nat) (h : Supported N) (g : GPool N) (v : Nat)
    (hst : g.staged = some v)
    (hok : (SharedPool.prod_commit g.pool).2 = none)
    (hinv : INVG N g) :
    INVG N ⟨(SharedPool.prod_commit g.pool).1, none, g.flight, g.leaked⟩ := by
  obtain ⟨⟨hwfA, hlenA⟩, hRok, hstg, hsum⟩ := hinv
  obtain ⟨hltA, hslot⟩ := hstg v hst
  obtain ⟨hfullA, hstate0⟩ := prod_commit_ok_state g.pool v hslot hok
  have hstate : (SharedPool.prod_commit g.pool).1 =
      SharedPool.setAllocRbr g.pool (incWr g.pool.alloc_rbuf.ringbuf_ref) := hstate0
  have hwfA2 : RingBufRef.Wf (incWr g.pool.alloc_rbuf.ringbuf_ref) :=
    RingBufRef.wf_incWr h _ hwfA
  have hlen2 : RingBufRef.trueLen (incWr g.pool.alloc_rbuf.ringbuf_ref) =
      RingBufRef.trueLen g.pool.alloc_rbuf.ringbuf_ref + 1 :=
    RingBufRef.trueLen_incWr h _ hwfA hltA
  refine ⟨?_, ?_, ?_, ?_⟩
  · rw [hstate]
    refine ⟨hwfA2, ?_⟩
    show RingBufRef.trueLen (incWr g.pool.alloc_rbuf.ringbuf_ref) ≤ N
    rw [hlen2]
    omega
  · rw [hstate]
    exact hRok
  · intro w hw
    exact Option.noConfusion hw
  · intro j hj
    rw [hstate]
    show countIdx (incWr g.pool.alloc_rbuf.ringbuf_ref) j +
      List.count j g.flight + countIdx g.pool.return_rbuf.ringbuf_ref j +
      (if (none : Option Nat) = some j then 1 else 0) + List.count j g.leaked = 1
    have hcc : countIdx (incWr g.pool.alloc_rbuf.ringbuf_ref) j =
        countIdx g.pool.alloc_rbuf.ringbuf_ref j + (if v = j then 1 else 0) :=
      countIdx_commit h _ hwfA hltA v j hslot
    have hs := hsum j hj
    have he : ghostSum g j = countIdx g.pool.alloc_rbuf.ringbuf_ref j +
        List.count j g.flight + countIdx g.pool.return_rbuf.ringbuf_ref j +
        stagedTerm g j + List.count j g.leaked := rfl
    rw [he] at hs
    have hstj : stagedTerm g j = if v = j then 1 else 0 := by
      unfold stagedTerm
      rw [hst]
      by_cases hvj : v = j
      · rw [if_pos hvj, if_pos (by rw [hvj])]
      · rw [if_neg (by simp only [Option.some.injEq]; exact hvj), if_neg hvj]
    rw [hstj] at hs
    rw [if_neg (by simp)]
    by_cases hvj : v = j
    · rw [if_pos hvj] at hs hcc
      omega
    · rw [if_neg hvj] at hs hcc
      omega

theorem invg_pool_only (N : Nat) (g : GPool N) (j : Fin N) (o : Owner)
    (hinv : INVG N g) :
    INVG N ⟨SharedPool.setPool g.pool j o, g.staged, g.flight, g.leaked⟩ := hinv

theorem invg_cons_pop (N : Nat) (h : Supported N) (g : GPool N) (m : Nat)
    (hpeek : SharedPool.cons_peek g.pool = some m)
    (hinv : INVG N g) :
    INVG N ⟨(SharedPool.cons_pop g.pool).1, g.staged,
      (if m < N then [m] else []) ++ g.flight, g.leaked⟩ := by
  obtain ⟨⟨hwfA, hlenA⟩, hRok, hstg, hsum⟩ := hinv
  have hpeekA : RingBufRef.peek g.pool.alloc_rbuf.ringbuf_ref = some m := hpeek
  have hpos := peek_some_pos h _ hwfA m hpeekA
  have hstate : (SharedPool.cons_pop g.pool).1 =
      SharedPool.setAllocRbr g.pool (incRd g.pool.alloc_rbuf.ringbuf_ref) :=
    cons_pop_state g.pool m hpeek
  have hwfA2 : RingBufRef.Wf (incRd g.pool.alloc_rbuf.ringbuf_ref) :=
    RingBufRef.wf_incRd h _ hwfA
  have hlen2 : RingBufRef.trueLen (incRd g.pool.alloc_rbuf.ringbuf_ref) =
      RingBufRef.trueLen g.pool.alloc_rbuf.ringbuf_ref - 1 :=
    RingBufRef.trueLen_incRd h _ hwfA hpos
  refine ⟨?_, ?_, ?_, ?_⟩
  · rw [hstate]
    refine ⟨hwfA2, ?_⟩
    show RingBufRef.trueLen (incRd g.pool.alloc_rbuf.ringbuf_ref) ≤ N
    rw [hlen2]
    omega
  · rw [hstate]
    exact hRok
  · intro v hv
    obtain ⟨hlt, hslot⟩ := hstg v hv
    rw [hstate]
    constructor
    · show RingBufRef.trueLen (incRd g.pool.alloc_rbuf.ringbuf_ref) < N
      rw [hlen2]
      omega
    · exact hslot
  · intro j hj
    rw [hstate]
    show countIdx (incRd g.pool.alloc_rbuf.ringbuf_ref) j +
      List.count j ((if m < N then [m] else []) ++ g.flight) +
      countIdx g.pool.return_rbuf.ringbuf_ref j +
      stagedTerm g j + List.count j g.leaked = 1
    have hcpop : countIdx g.pool.alloc_rbuf.ringbuf_ref j =
        countIdx (incRd g.pool.alloc_rbuf.ringbuf_ref) j + (if m = j then 1 else 0) :=
      countIdx_pop h _ hwfA m hpeekA j
    have hs := hsum j hj
    have he : ghostSum g j = countIdx g.pool.alloc_rbuf.ringbuf_ref j +
        List.count j g.flight + countIdx g.pool.return_rbuf.ringbuf_ref j +
        stagedTerm g j + List.count j g.leaked := rfl
    rw [he] at hs
    rw [List.count_append]
    have hflight : List.count j (if m < N then [m] else []) = if m = j then 1 else 0 := by
      by_cases hmN : m < N
      · rw [if_pos hmN]
        by_cases hmj : m = j
        · rw [if_pos hmj, hmj]
          simp
        · rw [if_neg hmj]
          simp only [List.count_singleton]
          rw [if_neg (by simp only [beq_iff_eq]; omega)]
      · rw [if_neg hmN, if_neg (by omega)]
        rfl
    rw [hflight]
    by_cases hmj : m = j
    · rw [if_pos hmj] at hcpop ⊢
      omega
    · rw [if_neg hmj] at hcpop ⊢
      omega

theorem invg_enqueue_return (N : Nat) (h : Supported N) (g : GPool N) (i : Nat)
    (hin : i ∈ g.flight)
    (hres : (SharedPool.enqueue_return g.pool i).map Prod.snd = some none)
    (hinv : INVG N g) :
    INVG N ⟨enqState g.pool i, g.staged, g.flight.erase i, g.leaked⟩ := by
  obtain ⟨hAok, ⟨hwfR, hlenR⟩, hstg, hsum⟩ := hinv
  obtain ⟨hi, hvac, hfullR, hstate0⟩ := enq_ok_decomp g.pool i hres
  have hltR := RingBufRef.lt_of_not_full h _ hwfR hlenR hfullR
  have hstate : enqState g.pool i = SharedPool.setReturnRbr g.pool
      (incWr (RingBufRef.setSlot g.pool.return_rbuf.ringbuf_ref
        g.pool.return_rbuf.ringbuf_ref.wr_idx.mask i)) := hstate0
  have hwfR2 : RingBufRef.Wf (incWr (RingBufRef.setSlot g.pool.return_rbuf.ringbuf_ref
      g.pool.return_rbuf.ringbuf_ref.wr_idx.mask i)) :=
    RingBufRef.wf_incWr h _ hwfR
  have hlen2 : RingBufRef.trueLen (incWr (RingBufRef.setSlot g.pool.return_rbuf.ringbuf_ref
      g.pool.return_rbuf.ringbuf_ref.wr_idx.mask i)) =
      RingBufRef.trueLen g.pool.return_rbuf.ringbuf_ref + 1 :=
    RingBufRef.trueLen_incWr h _ hwfR hltR
  refine ⟨?_, ?_, ?_, ?_⟩
  · rw [hstate]
    exact hAok
  · rw [hstate]
    refine ⟨hwfR2, ?_⟩
    show RingBufRef.trueLen (incWr (RingBufRef.setSlot g.pool.return_rbuf.ringbuf_ref
      g.pool.return_rbuf.ringbuf_ref.wr_idx.mask i)) ≤ N
    rw [hlen2]
    omega
  · intro v hv
    obtain ⟨hlt, hslot⟩ := hstg v hv
    rw [hstate]
    exact ⟨hlt, hslot⟩
  · intro j hj
    rw [hstate]
    show countIdx g.pool.alloc_rbuf.ringbuf_ref j + List.count j (g.flight.erase i) +
      countIdx (incWr (RingBufRef.setSlot g.pool.return_rbuf.ringbuf_ref
        g.pool.return_rbuf.ringbuf_ref.wr_idx.mask i)) j +
      stagedTerm g j + List.count j g.leaked = 1
    have hcc : countIdx (incWr (RingBufRef.setSlot g.pool.return_rbuf.ringbuf_ref
        g.pool.return_rbuf.ringbuf_ref.wr_idx.mask i)) j =
        countIdx g.pool.return_rbuf.ringbuf_ref j + (if i = j then 1 else 0) :=
      countIdx_commit_setSlot h _ hwfR hltR i j
    have hs := hsum j hj
    have he : ghostSum g j = countIdx g.pool.alloc_rbuf.ringbuf_ref j +
        List.count j g.flight + countIdx g.pool.return_rbuf.ringbuf_ref j +
        stagedTerm g j + List.count j g.leaked := rfl
    rw [he] at hs
    have hcount : 0 < List.count i g.flight := List.count_pos_iff.mpr hin
    by_cases hij : i = j
    · subst hij
      rw [List.count_erase_self]
      rw [if_pos rfl] at hcc
      omega
    · rw [List.count_erase_of_ne (by omega)]
      rw [if_neg hij] at hcc
      omega

theorem invg_step (N : Nat) (h : Supported N) (g g2 : GPool N)
    (hstep : GStep N g g2) (hinv : INVG N g) : INVG N g2 := by
  cases hstep with
  | stage_norm hok hfull => exact invg_stage_norm N h g hok hfull hinv
  | stage_payload_ok i hok hpeek hres =>
    exact invg_stage_payload_ok N h g i hok hpeek hres hinv
  | stage_payload_leak i hok hpeek hres =>
    exact invg_stage_payload_leak N h g i hok hpeek hres hinv
  | commit_ok v hst hok => exact invg_commit_ok N h g v hst hok hinv
  | do_try_write i hi hst hok =>
    obtain ⟨-, hstate⟩ := try_write_ok g.pool ⟨i, hi⟩ hok
    rw [hstate]
    exact invg_pool_only N g ⟨i, hi⟩ Owner.Producer hinv
  | do_write_done i hi hst hok =>
    obtain ⟨-, hstate⟩ := write_done_ok g.pool ⟨i, hi⟩ hok
    rw [hstate]
    exact invg_pool_only N g ⟨i, hi⟩ Owner.Consumer hinv
  | cons_pop m hpeek => exact invg_cons_pop N h g m hpeek hinv
  | do_read_done i hi hin hok =>
    obtain ⟨-, hstate⟩ := read_done_ok g.pool ⟨i, hi⟩ hok
    rw [hstate]
    exact invg_pool_only N g ⟨i, hi⟩ Owner.Vacant hinv
  | do_enqueue_return i hin hres => exact invg_enqueue_return N h g i hin hres hinv

theorem invg_reachable (N : Nat) (h : Supported N) (g : GPool N)
    (hr : ReachableG N g) : INVG N g := by
  unfold ReachableG at hr
  induction hr with
  | refl => exact invg_init N h
  | tail hab hbc ih => exact invg_step N h _ _ hbc ih

/-- C5: capacity roundtrip for `RingBufRef<T, N>`.  For every supported
`N`, starting from the empty buffer, `N` successive stage-then-commit
pairs all succeed; then `alloc` returns `None` and `commit` fails with
`BuffFull`; after any `M ≤ N` pops (all of which succeed), exactly `M`
further stage+commit pairs succeed, after which the buffer is full
again: `commit` fails with `BuffFull` and `alloc` returns `None`. -/
theorem C5_capacity_roundtrip (N M : Nat) (h : Supported N) (hM : M ≤ N) :
    (RingBufRef.iterSC (RingBufRef.new : RingBufRef Unit N) () N).2 = true ∧
    RingBufRef.alloc (RingBufRef.iterSC (RingBufRef.new : RingBufRef Unit N) () N).1 = none ∧
    (RingBufRef.commit
      (RingBufRef.iterSC (RingBufRef.new : RingBufRef Unit N) () N).1).2 =
        some ErrCode.BuffFull ∧
    (RingBufRef.iterPop
      (RingBufRef.iterSC (RingBufRef.new : RingBufRef Unit N) () N).1 M).2 = true ∧
    (RingBufRef.iterSC (RingBufRef.iterPop
      (RingBufRef.iterSC (RingBufRef.new : RingBufRef Unit N) () N).1 M).1 () M).2 = true ∧
    (RingBufRef.commit (RingBufRef.iterSC (RingBufRef.iterPop
      (RingBufRef.iterSC (RingBufRef.new : RingBufRef Unit N) () N).1 M).1 () M).1).2 =
        some ErrCode.BuffFull ∧
    RingBufRef.alloc (RingBufRef.iterSC (RingBufRef.iterPop
      (RingBufRef.iterSC (RingBufRef.new : RingBufRef Unit N) () N).1 M).1 () M).1 = none := by
  have hN := supported_pos N h
  have hNm := lt_modBase N h
  have hm := modBase_pos N h
  obtain ⟨hf1, hrd1, hwr1⟩ := RingBufRef.iterSC_ok h ()
    N (RingBufRef.new : RingBufRef Unit N) 0 0 rfl rfl (Nat.zero_le N) (by omega) (by omega)
  have hwr1n : (RingBufRef.iterSC (RingBufRef.new : RingBufRef Unit N) () N).1.wr_idx.cell
      = N := by
    rw [hwr1]
    simp [Nat.mod_eq_of_lt hNm]
  have hwf1 : RingBufRef.Wf (RingBufRef.iterSC (RingBufRef.new : RingBufRef Unit N) () N).1 := by
    refine ⟨?_, ?_⟩
    · rw [hrd1]; exact hm
    · rw [hwr1n]; exact hNm
  have htl1 : RingBufRef.trueLen
      (RingBufRef.iterSC (RingBufRef.new : RingBufRef Unit N) () N).1 = N := by
    unfold RingBufRef.trueLen
    rw [hwr1n, hrd1, Nat.sub_zero, Nat.add_mod_right, Nat.mod_eq_of_lt hNm]
  have hfull1 := RingBufRef.is_full_of_len h _ hwf1 htl1
  obtain ⟨hf2, hw2, hr2⟩ := RingBufRef.iterPop_ok h M
    (RingBufRef.iterSC (RingBufRef.new : RingBufRef Unit N) () N).1 0 hrd1
    (by rw [hwr1n]; omega) (by rw [hwr1n]; exact hNm)
  have hwr2 : (RingBufRef.iterPop
      (RingBufRef.iterSC (RingBufRef.new : RingBufRef Unit N) () N).1 M).1.wr_idx.cell
      = N := by rw [hw2, hwr1n]
  have hr2n : (RingBufRef.iterPop
      (RingBufRef.iterSC (RingBufRef.new : RingBufRef Unit N) () N).1 M).1.rd_idx.cell
      = M := by rw [hr2]; omega
  obtain ⟨hf3, hrd3, hwr3⟩ := RingBufRef.iterSC_ok h () M
    (RingBufRef.iterPop (RingBufRef.iterSC (RingBufRef.new : RingBufRef Unit N) () N).1 M).1
    M (N - M) hr2n (by rw [hwr2]; omega) hM (by omega) (by omega)
  have hwr3n : (RingBufRef.iterSC (RingBufRef.iterPop
      (RingBufRef.iterSC (RingBufRef.new : RingBufRef Unit N) () N).1 M).1 () M).1.wr_idx.cell
      = (M + N) % modBase N := by
    rw [hwr3]
    congr 1
    omega
  have hwf3 : RingBufRef.Wf (RingBufRef.iterSC (RingBufRef.iterPop
      (RingBufRef.iterSC (RingBufRef.new : RingBufRef Unit N) () N).1 M).1 () M).1 := by
    refine ⟨?_, ?_⟩
    · rw [hrd3]; omega
    · rw [hwr3n]; exact Nat.mod_lt _ hm
  have htl3 : RingBufRef.trueLen (RingBufRef.iterSC (RingBufRef.iterPop
      (RingBufRef.iterSC (RingBufRef.new : RingBufRef Unit N) () N).1 M).1 () M).1 = N := by
    unfold RingBufRef.trueLen
    rw [hwr3n, hrd3]
    exact mod_sub_cancel (modBase N) M N (by omega) hNm
  have hfull3 := RingBufRef.is_full_of_len h _ hwf3 htl3
  refine ⟨hf1, ?_, ?_, hf2, hf3, ?_, ?_⟩
  · simp [RingBufRef.alloc, hfull1]
  · simp [RingBufRef.commit, hfull1]
  · simp [RingBufRef.commit, hfull3]
  · simp [RingBufRef.alloc, hfull3]

/-- Witness for C5 at the concrete supported capacity `N = 3` (not a
power of two) with `M = 2`. -/
theorem C5_capacity_roundtrip_witness :
    Supported 3 ∧ 2 ≤ 3 ∧
    ((RingBufRef.iterSC (RingBufRef.new : RingBufRef Unit 3) () 3).2 = true ∧
    RingBufRef.alloc (RingBufRef.iterSC (RingBufRef.new : RingBufRef Unit 3) () 3).1 = none ∧
    (RingBufRef.commit
      (RingBufRef.iterSC (RingBufRef.new : RingBufRef Unit 3) () 3).1).2 =
        some ErrCode.BuffFull ∧
    (RingBufRef.iterPop
      (RingBufRef.iterSC (RingBufRef.new : RingBufRef Unit 3) () 3).1 2).2 = true ∧
    (RingBufRef.iterSC (RingBufRef.iterPop
      (RingBufRef.iterSC (RingBufRef.new : RingBufRef Unit 3) () 3).1 2).1 () 2).2 = true ∧
    (RingBufRef.commit (RingBufRef.iterSC (RingBufRef.iterPop
      (RingBufRef.iterSC (RingBufRef.new : RingBufRef Unit 3) () 3).1 2).1 () 2).1).2 =
        some ErrCode.BuffFull ∧
    RingBufRef.alloc (RingBufRef.iterSC (RingBufRef.iterPop
      (RingBufRef.iterSC (RingBufRef.new : RingBufRef Unit 3) () 3).1 2).1 () 2).1 = none) :=
  ⟨by decide, by decide, C5_capacity_roundtrip 3 2 (by decide) (by decide)⟩

/-- C6: FIFO order preservation.  For every supported `N` and every
sequence of `push`/`pop` operations run from the fresh buffer, the values
observed by `peek` at each successful `pop` are exactly the successfully
pushed values, in order (a prefix of them, since some may still be
queued). -/
theorem C6_fifo_order (N : Nat) {α : Type} (h : Supported N) (ops : List (RBOp α)) :
    (RingBufRef.runOps (RingBufRef.new : RingBufRef α N) ops).2.2 =
      (RingBufRef.runOps (RingBufRef.new : RingBufRef α N) ops).2.1.take
        (RingBufRef.runOps (RingBufRef.new : RingBufRef α N) ops).2.2.length := by
  obtain ⟨lf, -, heq⟩ :=
    RingBufRef.run_spec h ops RingBufRef.new [] (RingBufRef.inv_new h)
  rw [List.nil_append] at heq
  rw [← heq, List.take_left]

/-- Witness for C6: a concrete run at `N = 4` in which three pushes
succeed, one push fails on the full buffer, and the pops observe the
pushed values in FIFO order. -/
theorem C6_fifo_order_witness :
    Supported 4 ∧
    ((RingBufRef.runOps (RingBufRef.new : RingBufRef Nat 4)
        [RBOp.push 10, RBOp.push 20, RBOp.pop, RBOp.push 30, RBOp.pop, RBOp.pop]).2.2 =
      (RingBufRef.runOps (RingBufRef.new : RingBufRef Nat 4)
        [RBOp.push 10, RBOp.push 20, RBOp.pop, RBOp.push 30, RBOp.pop, RBOp.pop]).2.1.take
        (RingBufRef.runOps (RingBufRef.new : RingBufRef Nat 4)
          [RBOp.push 10, RBOp.push 20, RBOp.pop, RBOp.push 30, RBOp.pop, RBOp.pop]).2.2.length) ∧
    (RingBufRef.runOps (RingBufRef.new : RingBufRef Nat 4)
        [RBOp.push 10, RBOp.push 20, RBOp.pop, RBOp.push 30, RBOp.pop, RBOp.pop]).2.2 =
      [10, 20, 30] :=
  ⟨by decide, C6_fifo_order 4 (by decide) _, by decide⟩

/-- C7 counterexample: `N = 1` is supported and a power of two; at the
in-range counter value `v = 1 < 2N` the code's `wrap_inc` produces `2`
(plain wrapping addition), not `(v + 1) mod 2N = 0`, and the result is
no longer in `[0, 2N)` — the claim's "(v + 1) mod 2N for every supported
N" is false on the power-of-two path. -/
theorem C7_counterexample :
    Supported 1 ∧ (1 : Nat) < 2 * 1 ∧ isPow2 1 = true ∧
    (Index.wrap_inc (Index.mk 1 : Index 1)).cell = 2 ∧
    (1 + 1) % (2 * 1) = 0 ∧
    ¬ (Index.wrap_inc (Index.mk 1 : Index 1)).cell < 2 * 1 := by decide

/-- C7 amended: for every supported `N` and `v < 2N`: on the
non-power-of-two path `wrap_inc` stores `(v + 1) mod 2N`, which is again
in `[0, 2N)`; on the power-of-two path it stores `(v + 1) mod 2^32`,
which is congruent to `(v + 1)` modulo `2N` (the code relies on
`2N ∣ 2^32`). -/
theorem C7_wrap_inc_amended (N v : Nat) (h : Supported N) (hv : v < 2 * N) :
    (¬ isPow2 N = true →
      (Index.wrap_inc (Index.mk v : Index N)).cell = (v + 1) % (2 * N) ∧
      (Index.wrap_inc (Index.mk v : Index N)).cell < 2 * N) ∧
    (isPow2 N = true →
      (Index.wrap_inc (Index.mk v : Index N)).cell = (v + 1) % U32 ∧
      (Index.wrap_inc (Index.mk v : Index N)).cell % (2 * N) = (v + 1) % (2 * N)) := by
  have hN := supported_pos N h
  constructor
  · intro hp
    have hp2 : isPow2 N = false := by
      cases hx : isPow2 N
      · rfl
      · exact absurd hx hp
    have hmb : modBase N = 2 * N := by simp [modBase, hp2]
    have h1 := wrap_inc_cell N h v (by rw [hmb]; exact hv)
    rw [hmb] at h1
    exact ⟨h1, by rw [h1]; exact Nat.mod_lt _ (by omega)⟩
  · intro hp
    have hmb : modBase N = U32 := by simp [modBase, hp]
    have h1 := wrap_inc_cell N h v
      (by rw [hmb]; have := supported_two_mul_lt N h; omega)
    rw [hmb] at h1
    refine ⟨h1, ?_⟩
    rw [h1, Nat.mod_mod_of_dvd _ (pow2_two_mul_dvd_U32 N h hp)]

/-- Witness for the amended C7 at the supported non-power-of-two
capacity `N = 3` with `v = 5` (and the power-of-two side vacuous). -/
theorem C7_wrap_inc_amended_witness :
    Supported 3 ∧ 5 < 2 * 3 ∧
    ((¬ isPow2 3 = true →
      (Index.wrap_inc (Index.mk 5 : Index 3)).cell = (5 + 1) % (2 * 3) ∧
      (Index.wrap_inc (Index.mk 5 : Index 3)).cell < 2 * 3) ∧
    (isPow2 3 = true →
      (Index.wrap_inc (Index.mk 5 : Index 3)).cell = (5 + 1) % U32 ∧
      (Index.wrap_inc (Index.mk 5 : Index 3)).cell % (2 * 3) = (5 + 1) % (2 * 3))) :=
  ⟨by decide, by decide, C7_wrap_inc_amended 3 5 (by decide) (by decide)⟩

/-- C8: power-of-two fast path equivalence.  For every supported
power-of-two `N`, running any sequence of buffer operations from equal
counters through the code's specialized paths (bitwise-AND mask, native
overflow `wrap_inc`, raw wrapping `wrap_dist`) produces, step by step,
exactly the observations (`len`, `is_empty`, `is_full`, masked write and
read slots, and each operation's result) of the general non-power-of-two
path semantics over `[0, 2N)` counters. -/
theorem C8_pow2_fast_path (N : Nat) (h : Supported N) (hp : isPow2 N = true)
    (c : Nat) (hc : c < U32) (ops : List COp) :
    codeRun (RingBufRef.mk (Index.new c) (Index.new c) (fun _ => none) : RingBufRef Unit N)
        ops
      = genRun N (GenState.mk (c % (2 * N)) (c % (2 * N))) ops := by
  apply sim_run N h hp ops
  have hN := supported_pos N h
  refine ⟨hc, hc, rfl, rfl, ?_, ?_⟩
  · show (c + modBase N - c) % modBase N ≤ N
    have h1 : c + modBase N - c = modBase N := by omega
    rw [h1, Nat.mod_self]
    omega
  · show (c % (2 * N) + 2 * N - c % (2 * N)) % (2 * N) = (c + modBase N - c) % modBase N
    have h1 : c % (2 * N) + 2 * N - c % (2 * N) = 2 * N := by omega
    have h2 : c + modBase N - c = modBase N := by omega
    rw [h1, h2, Nat.mod_self, Nat.mod_self]

/-- Witness for C8 at `N = 16` with both counters initialized to
`u32::MAX - 2` (the repository's wraparound test configuration). -/
theorem C8_pow2_fast_path_witness :
    Supported 16 ∧ isPow2 16 = true ∧ (4294967293 : Nat) < U32 ∧
    codeRun (RingBufRef.mk (Index.new 4294967293) (Index.new 4294967293)
        (fun _ => none) : RingBufRef Unit 16)
        [COp.pop, COp.commit, COp.commit, COp.pop, COp.pop] =
      genRun 16 (GenState.mk (4294967293 % (2 * 16)) (4294967293 % (2 * 16)))
        [COp.pop, COp.commit, COp.commit, COp.pop, COp.pop] :=
  ⟨by decide, by decide, by decide,
    C8_pow2_fast_path 16 (by decide) (by decide) 4294967293 (by decide) _⟩

/-- C9: the claim says capacity `N = 2^31 - 1` is accepted, matching the
code's own doc comment ("max supported capacity to 2^31-1"), but the
compile-time assertion `N < u32::MAX / 2` evaluates to false exactly at
`N = 2^31 - 1 = 2147483647` — an off-by-one: `2N` still fits `u32`
there.  The code contradicts its own documentation; `N = 2^31 - 2` is
the largest accepted capacity. -/
theorem C9_capacity_bound_code_bug :
    ¬ Index.okCond 2147483647 ∧
    RingBufRef.okCond 2147483647 ∧
    2147483647 = 2 ^ 31 - 1 ∧
    2 * 2147483647 < U32 ∧
    Index.okCond 2147483646 ∧ RingBufRef.okCond 2147483646 ∧
    ¬ RingBufRef.okCond 0 := by
  refine ⟨?_, ?_, ?_, ?_, ?_, ?_, ?_⟩ <;> norm_num [Index.okCond, RingBufRef.okCond, u32Max, U32]

/-- C2: creating the consumer endpoint of a fresh `SharedPool` runs the
seeding loop: it succeeds (no unwrap can panic), and immediately
afterwards the return queue holds exactly `N` entries whose embedded
pool indices are `0, 1, …, N-1` in order, while every payload singleton
is still `Vacant`. -/
theorem C2_seeding (N : Nat) (h : Supported N) :
    (SharedPool.split_cons (SharedPool.new N)).2 = none ∧
    (SharedPool.seedLoop (RingBufRef.new : RingBufRef Nat N) N).2 = true ∧
    RingBufRef.trueLen
      (SharedPool.split_cons (SharedPool.new N)).1.return_rbuf.ringbuf_ref = N ∧
    RingBufRef.liveOpt
      (SharedPool.split_cons (SharedPool.new N)).1.return_rbuf.ringbuf_ref
      = (List.range N).map some ∧
    (∀ i : Fin N, (SharedPool.split_cons (SharedPool.new N)).1.pool i = Owner.Vacant) := by
  obtain ⟨hflag, -, -, -⟩ := seedLoop_fresh N h N (Nat.le_refl N)
  exact ⟨rfl, hflag, seeded_trueLen N h, seeded_liveOpt N h, fun i => rfl⟩

/-- Witness for C2 at the supported capacity `N = 3`. -/
theorem C2_seeding_witness :
    Supported 3 ∧
    (SharedPool.split_cons (SharedPool.new 3)).2 = none ∧
    (SharedPool.seedLoop (RingBufRef.new : RingBufRef Nat 3) 3).2 = true ∧
    RingBufRef.liveOpt
      (SharedPool.split_cons (SharedPool.new 3)).1.return_rbuf.ringbuf_ref
      = [some 0, some 1, some 2] ∧
    (SharedPool.split_cons (SharedPool.new 3)).1.pool 0 = Owner.Vacant :=
  ⟨by decide, (C2_seeding 3 (by decide)).1, (C2_seeding 3 (by decide)).2.1,
    by rw [(C2_seeding 3 (by decide)).2.2.2.1]; rfl,
    (C2_seeding 3 (by decide)).2.2.2.2 0⟩

/-- C3: the commit gate.  If the staged alloc message carries a valid
pool index whose singleton is owned by the producer (not yet
`write_done`, hence not Consumer-owned), `Producer::commit` returns
`PayloadNotConsumerOwned` and leaves the pool state — in particular the
alloc-queue write cursor — unchanged; after `write_done` on that
singleton, a subsequent `commit` succeeds and advances the write
cursor. -/
theorem C3_commit_gate (N : Nat) (h : Supported N) (p : SharedPool N) (i : Nat)
    (hi : i < N)
    (hnf : RingBufRef.is_full p.alloc_rbuf.ringbuf_ref = false)
    (hstaged : RingBufRef.getSlot p.alloc_rbuf.ringbuf_ref
      p.alloc_rbuf.ringbuf_ref.wr_idx.mask = some i)
    (hown : p.pool ⟨i, hi⟩ = Owner.Producer) :
    SharedPool.prod_commit p = (p, some SharedPoolError.PayloadNotConsumerOwned) ∧
    (SharedPool.payload_write_done p ⟨i, hi⟩).2 = none ∧
    (SharedPool.prod_commit (SharedPool.payload_write_done p ⟨i, hi⟩).1).2 = none ∧
    (SharedPool.prod_commit
        (SharedPool.payload_write_done p ⟨i, hi⟩).1).1.alloc_rbuf.ringbuf_ref.wr_idx
      = p.alloc_rbuf.ringbuf_ref.wr_idx.wrap_inc := by
  have halloc : RingBufRef.alloc p.alloc_rbuf.ringbuf_ref =
      some p.alloc_rbuf.ringbuf_ref.wr_idx.mask := by
    unfold RingBufRef.alloc
    rw [hnf]
    rfl
  have hwd : SharedSingleton.write_done (p.pool ⟨i, hi⟩) = (Owner.Consumer, none) := by
    rw [hown]
    rfl
  have hread : SharedSingleton.try_read (p.pool ⟨i, hi⟩) = none := by
    rw [hown]
    rfl
  refine ⟨?_, ?_, ?_, ?_⟩
  · unfold SharedPool.prod_commit
    rw [halloc]
    show (match RingBufRef.getSlot p.alloc_rbuf.ringbuf_ref
        p.alloc_rbuf.ringbuf_ref.wr_idx.mask with
      | some pidx =>
        if h : pidx < N then
          if (SharedSingleton.try_read (p.pool ⟨pidx, h⟩)).isSome then
            (SharedPool.setAllocRbr p (RingBufRef.commit p.alloc_rbuf.ringbuf_ref).1, none)
          else (p, some SharedPoolError.PayloadNotConsumerOwned)
        else (SharedPool.setAllocRbr p (RingBufRef.commit p.alloc_rbuf.ringbuf_ref).1, none)
      | none =>
        (SharedPool.setAllocRbr p (RingBufRef.commit p.alloc_rbuf.ringbuf_ref).1, none)) = _
    rw [hstaged]
    show (if h : i < N then
        if (SharedSingleton.try_read (p.pool ⟨i, h⟩)).isSome then
          (SharedPool.setAllocRbr p (RingBufRef.commit p.alloc_rbuf.ringbuf_ref).1, none)
        else (p, some SharedPoolError.PayloadNotConsumerOwned)
      else (SharedPool.setAllocRbr p (RingBufRef.commit p.alloc_rbuf.ringbuf_ref).1, none)) = _
    rw [dif_pos hi, hread]
    rfl
  · show (SharedSingleton.write_done (p.pool ⟨i, hi⟩)).2 = none
    rw [hwd]
  · unfold SharedPool.prod_commit
    rw [show RingBufRef.alloc
        (SharedPool.payload_write_done p ⟨i, hi⟩).1.alloc_rbuf.ringbuf_ref =
      some p.alloc_rbuf.ringbuf_ref.wr_idx.mask from halloc]
    show (match RingBufRef.getSlot p.alloc_rbuf.ringbuf_ref
        p.alloc_rbuf.ringbuf_ref.wr_idx.mask with
      | some pidx =>
        if h : pidx < N then
          if (SharedSingleton.try_read
              ((SharedPool.payload_write_done p ⟨i, hi⟩).1.pool ⟨pidx, h⟩)).isSome then
            (SharedPool.setAllocRbr (SharedPool.payload_write_done p ⟨i, hi⟩).1
              (RingBufRef.commit p.alloc_rbuf.ringbuf_ref).1, none)
          else ((SharedPool.payload_write_done p ⟨i, hi⟩).1,
            some SharedPoolError.PayloadNotConsumerOwned)
        else (SharedPool.setAllocRbr (SharedPool.payload_write_done p ⟨i, hi⟩).1
          (RingBufRef.commit p.alloc_rbuf.ringbuf_ref).1, none)
      | none =>
        (SharedPool.setAllocRbr (SharedPool.payload_write_done p ⟨i, hi⟩).1
          (RingBufRef.commit p.alloc_rbuf.ringbuf_ref).1,
          none)).2 = none
    rw [hstaged]
    have hread2 : SharedSingleton.try_read
        ((SharedPool.payload_write_done p ⟨i, hi⟩).1.pool ⟨i, hi⟩) = some () := by
      show SharedSingleton.try_read
        (if (⟨i, hi⟩ : Fin N) = ⟨i, hi⟩ then (SharedSingleton.write_done (p.pool ⟨i, hi⟩)).1
          else p.pool ⟨i, hi⟩) = some ()
      rw [if_pos rfl, hwd]
      rfl
    show (if h : i < N then
        if (SharedSingleton.try_read
            ((SharedPool.payload_write_done p ⟨i, hi⟩).1.pool ⟨i, h⟩)).isSome then _
        else _
      else _ : SharedPool N × Option SharedPoolError).2 = none
    rw [dif_pos hi, hread2]
    rfl
  · unfold SharedPool.prod_commit
    rw [show RingBufRef.alloc
        (SharedPool.payload_write_done p ⟨i, hi⟩).1.alloc_rbuf.ringbuf_ref =
      some p.alloc_rbuf.ringbuf_ref.wr_idx.mask from halloc]
    show (match RingBufRef.getSlot p.alloc_rbuf.ringbuf_ref
        p.alloc_rbuf.ringbuf_ref.wr_idx.mask with
      | some pidx =>
        if h : pidx < N then
          if (SharedSingleton.try_read
              ((SharedPool.payload_write_done p ⟨i, hi⟩).1.pool ⟨pidx, h⟩)).isSome then
            (SharedPool.setAllocRbr (SharedPool.payload_write_done p ⟨i, hi⟩).1
              (RingBufRef.commit p.alloc_rbuf.ringbuf_ref).1, none)
          else ((SharedPool.payload_write_done p ⟨i, hi⟩).1,
            some SharedPoolError.PayloadNotConsumerOwned)
        else (SharedPool.setAllocRbr (SharedPool.payload_write_done p ⟨i, hi⟩).1
          (RingBufRef.commit p.alloc_rbuf.ringbuf_ref).1, none)
      | none =>
        (SharedPool.setAllocRbr (SharedPool.payload_write_done p ⟨i, hi⟩).1
          (RingBufRef.commit p.alloc_rbuf.ringbuf_ref).1,
          none)).1.alloc_rbuf.ringbuf_ref.wr_idx = _
    rw [hstaged]
    have hread2 : SharedSingleton.try_read
        ((SharedPool.payload_write_done p ⟨i, hi⟩).1.pool ⟨i, hi⟩) = some () := by
      show SharedSingleton.try_read
        (if (⟨i, hi⟩ : Fin N) = ⟨i, hi⟩ then (SharedSingleton.write_done (p.pool ⟨i, hi⟩)).1
          else p.pool ⟨i, hi⟩) = some ()
      rw [if_pos rfl, hwd]
      rfl
    show (if h : i < N then
        if (SharedSingleton.try_read
            ((SharedPool.payload_write_done p ⟨i, hi⟩).1.pool ⟨i, h⟩)).isSome then _
        else _
      else _ : SharedPool N × Option SharedPoolError).1.alloc_rbuf.ringbuf_ref.wr_idx = _
    rw [dif_pos hi, hread2]
    show (RingBufRef.commit p.alloc_rbuf.ringbuf_ref).1.wr_idx = _
    unfold RingBufRef.commit
    rw [hnf]
    rfl

/-- Witness for C3: a one-slot pool whose alloc queue has a staged
message naming slot 0 and whose singleton is Producer-owned. -/
theorem C3_commit_gate_witness :
    Supported 1 ∧ 0 < 1 ∧
    RingBufRef.is_full
      (SharedPool.mk
        (RingBuf.mk (RingBufRef.mk (Index.new 0) (Index.new 0) (fun _ => some 0)) true false)
        (RingBuf.mk (RingBufRef.mk (Index.new 1) (Index.new 1) (fun _ => some 0)) false true)
        (fun _ => Owner.Producer) : SharedPool 1).alloc_rbuf.ringbuf_ref = false ∧
    (SharedPool.prod_commit
      (SharedPool.mk
        (RingBuf.mk (RingBufRef.mk (Index.new 0) (Index.new 0) (fun _ => some 0)) true false)
        (RingBuf.mk (RingBufRef.mk (Index.new 1) (Index.new 1) (fun _ => some 0)) false true)
        (fun _ => Owner.Producer) : SharedPool 1)).2
      = some SharedPoolError.PayloadNotConsumerOwned ∧
    (SharedPool.prod_commit (SharedPool.payload_write_done
      (SharedPool.mk
        (RingBuf.mk (RingBufRef.mk (Index.new 0) (Index.new 0) (fun _ => some 0)) true false)
        (RingBuf.mk (RingBufRef.mk (Index.new 1) (Index.new 1) (fun _ => some 0)) false true)
        (fun _ => Owner.Producer) : SharedPool 1) ⟨0, by decide⟩).1).2 = none :=
  ⟨by decide, by decide, by decide,
    by rw [(C3_commit_gate 1 (by decide) _ 0 (by decide) (by decide) (by decide)
        (by decide)).1],
    (C3_commit_gate 1 (by decide) _ 0 (by decide) (by decide) (by decide)
        (by decide)).2.2.1⟩

/-- C10: a failed `split()` is not atomic.  On a `RingBuf` whose
producer endpoint was already issued, `split()` fails but still latches
the consumer side, so afterwards neither endpoint can ever be obtained;
symmetrically for a consumer-first `RingBuf`.  On a `SharedPool` whose
producer endpoint was already issued, `split()` returns `AlreadySplit`
but still runs `split_cons`, latching both remaining ring latches and
executing the full return-queue seeding; afterwards `split_prod` and
`split_cons` both fail.  The consumer-first pool case symmetrically
issues and discards a producer endpoint. -/
theorem C10_split_not_atomic (N : Nat) (h : Supported N) :
    (RingBuf.split (RingBuf.split_prod (RingBuf.new : RingBuf Nat N)).1).2 = false ∧
    (RingBuf.split (RingBuf.split_prod (RingBuf.new : RingBuf Nat N)).1).1.has_split_cons
      = true ∧
    (RingBuf.split_prod
      (RingBuf.split (RingBuf.split_prod (RingBuf.new : RingBuf Nat N)).1).1).2 = false ∧
    (RingBuf.split_cons
      (RingBuf.split (RingBuf.split_prod (RingBuf.new : RingBuf Nat N)).1).1).2 = false ∧
    (RingBuf.split (RingBuf.split_cons (RingBuf.new : RingBuf Nat N)).1).2 = false ∧
    (RingBuf.split (RingBuf.split_cons (RingBuf.new : RingBuf Nat N)).1).1.has_split_prod
      = true ∧
    (SharedPool.split (SharedPool.split_prod (SharedPool.new N)).1).2
      = some SharedPoolError.AlreadySplit ∧
    (SharedPool.split
      (SharedPool.split_prod (SharedPool.new N)).1).1.alloc_rbuf.has_split_cons = true ∧
    (SharedPool.split
      (SharedPool.split_prod (SharedPool.new N)).1).1.return_rbuf.has_split_prod = true ∧
    RingBufRef.liveOpt (SharedPool.split
        (SharedPool.split_prod (SharedPool.new N)).1).1.return_rbuf.ringbuf_ref
      = (List.range N).map some ∧
    (SharedPool.split_prod
        (SharedPool.split (SharedPool.split_prod (SharedPool.new N)).1).1).2
      = some SharedPoolError.AlreadySplit ∧
    (SharedPool.split_cons
        (SharedPool.split (SharedPool.split_prod (SharedPool.new N)).1).1).2
      = some SharedPoolError.AlreadySplit ∧
    (SharedPool.split (SharedPool.split_cons (SharedPool.new N)).1).2
      = some SharedPoolError.AlreadySplit ∧
    (SharedPool.split
      (SharedPool.split_cons (SharedPool.new N)).1).1.alloc_rbuf.has_split_prod = true ∧
    (SharedPool.split_prod
        (SharedPool.split (SharedPool.split_cons (SharedPool.new N)).1).1).2
      = some SharedPoolError.AlreadySplit ∧
    (SharedPool.split_cons
        (SharedPool.split (SharedPool.split_cons (SharedPool.new N)).1).1).2
      = some SharedPoolError.AlreadySplit := by
  refine ⟨rfl, rfl, rfl, rfl, rfl, rfl, rfl, rfl, rfl, ?_, rfl, rfl, rfl, rfl, rfl, rfl⟩
  exact seeded_liveOpt N h

/-- Witness for C10 at `N = 3`. -/
theorem C10_split_not_atomic_witness :
    Supported 3 ∧
    (RingBuf.split (RingBuf.split_prod (RingBuf.new : RingBuf Nat 3)).1).2 = false ∧
    (SharedPool.split (SharedPool.split_prod (SharedPool.new 3)).1).2
      = some SharedPoolError.AlreadySplit ∧
    RingBufRef.liveOpt (SharedPool.split
        (SharedPool.split_prod (SharedPool.new 3)).1).1.return_rbuf.ringbuf_ref
      = [some 0, some 1, some 2] ∧
    (SharedPool.split_cons
        (SharedPool.split (SharedPool.split_prod (SharedPool.new 3)).1).1).2
      = some SharedPoolError.AlreadySplit :=
  ⟨by decide, (C10_split_not_atomic 3 (by decide)).1,
    (C10_split_not_atomic 3 (by decide)).2.2.2.2.2.2.1,
    by rw [(C10_split_not_atomic 3 (by decide)).2.2.2.2.2.2.2.2.2.1]; rfl,
    (C10_split_not_atomic 3 (by decide)).2.2.2.2.2.2.2.2.2.2.2.1⟩

theorem leaked_mono_step (N : Nat) (a b : GPool N) (hstep : GStep N a b) (i : Nat) :
    List.count i a.leaked ≤ List.count i b.leaked := by
  cases hstep with
  | stage_payload_leak j hok hpeek hres =>
    show List.count i a.leaked ≤ List.count i (j :: a.leaked)
    rw [List.count_cons]
    exact Nat.le_add_right _ _
  | stage_norm hok hfull => exact Nat.le_refl _
  | stage_payload_ok j hok hpeek hres => exact Nat.le_refl _
  | commit_ok v hst hok => exact Nat.le_refl _
  | do_try_write j hj hst hok => exact Nat.le_refl _
  | do_write_done j hj hst hok => exact Nat.le_refl _
  | cons_pop m hpeek => exact Nat.le_refl _
  | do_read_done j hj hin hok => exact Nat.le_refl _
  | do_enqueue_return j hin hres => exact Nat.le_refl _

theorem leaked_mono (N : Nat) (a b : GPool N)
    (hr : Relation.ReflTransGen (GStep N) a b) (i : Nat) :
    List.count i a.leaked ≤ List.count i b.leaked := by
  induction hr with
  | refl => exact Nat.le_refl _
  | tail hab hbc ih => exact Nat.le_trans ih (leaked_mono_step N _ _ hbc i)

/-- C4: non-atomic failure of `stage_with_payload`.  In any reachable
state whose return queue yields an index while the alloc queue is full,
`stage_with_payload` fails with `AllocBufFull` yet has already popped
the return queue (its fill level drops by one; the alloc side is
untouched), and in every later reachable state the taken index sits in
no queue, is not staged and is not in the consumer's flight — it is
leaked for the lifetime of the pool. -/
theorem C4_leak_on_mid_stage_failure (N : Nat) (h : Supported N)
    (g g2 : GPool N) (i : Nat)
    (hreach : ReachableG N g)
    (hok : stagedClear g)
    (hpeek : RingBufRef.peek g.pool.return_rbuf.ringbuf_ref = some i)
    (hres : (SharedPool.stage_with_payload g.pool).map Prod.snd =
      some (some SharedPoolError.AllocBufFull))
    (hreach2 : Relation.ReflTransGen (GStep N)
      ⟨swpState g.pool, g.staged, g.flight, i :: g.leaked⟩ g2) :
    0 < RingBufRef.trueLen g.pool.return_rbuf.ringbuf_ref ∧
    RingBufRef.is_full g.pool.alloc_rbuf.ringbuf_ref = true ∧
    RingBufRef.trueLen (swpState g.pool).return_rbuf.ringbuf_ref
        = RingBufRef.trueLen g.pool.return_rbuf.ringbuf_ref - 1 ∧
    (swpState g.pool).alloc_rbuf = g.pool.alloc_rbuf ∧
    countIdx g2.pool.alloc_rbuf.ringbuf_ref i = 0 ∧
    List.count i g2.flight = 0 ∧
    countIdx g2.pool.return_rbuf.ringbuf_ref i = 0 ∧
    stagedTerm g2 i = 0 := by
  obtain ⟨⟨hwfA, hlenA⟩, ⟨hwfR, hlenR⟩, hstg, hsum⟩ := invg_reachable N h g hreach
  obtain ⟨hi, hvac, hfullA, hstate⟩ := swp_leak_decomp g.pool i hpeek hres
  have hpos := peek_some_pos h _ hwfR i hpeek
  have hpop : (RingBufRef.pop g.pool.return_rbuf.ringbuf_ref).1 =
      incRd g.pool.return_rbuf.ringbuf_ref := by
    rw [pop_not_empty _ (peek_not_empty _ i hpeek)]
    rfl
  have hlen2 : RingBufRef.trueLen (incRd g.pool.return_rbuf.ringbuf_ref) =
      RingBufRef.trueLen g.pool.return_rbuf.ringbuf_ref - 1 :=
    RingBufRef.trueLen_incRd h _ hwfR hpos
  have hreach3 : ReachableG N g2 :=
    Relation.ReflTransGen.trans
      (Relation.ReflTransGen.tail hreach (GStep.stage_payload_leak g i hok hpeek hres))
      hreach2
  obtain ⟨-, -, -, hsum2⟩ := invg_reachable N h g2 hreach3
  have hs2 := hsum2 i hi
  have he2 : ghostSum g2 i = countIdx g2.pool.alloc_rbuf.ringbuf_ref i +
      List.count i g2.flight + countIdx g2.pool.return_rbuf.ringbuf_ref i +
      stagedTerm g2 i + List.count i g2.leaked := rfl
  rw [he2] at hs2
  have hmono : List.count i (i :: g.leaked) ≤ List.count i g2.leaked :=
    leaked_mono N _ g2 hreach2 i
  have hone : List.count i (i :: g.leaked) = List.count i g.leaked + 1 := by
    rw [List.count_cons]
    simp
  refine ⟨hpos, hfullA, ?_, ?_, by omega, by omega, by omega, by omega⟩
  · rw [hstate, hpop]
    show RingBufRef.trueLen (incRd g.pool.return_rbuf.ringbuf_ref) =
      RingBufRef.trueLen g.pool.return_rbuf.ringbuf_ref - 1
    exact hlen2
  · rw [hstate]
    rfl

theorem C4_leak_on_mid_stage_failure_witness :
    Supported 1 ∧
    ReachableG 1 (⟨(SharedPool.prod_commit
      (⟨(SharedPool.prod_stage (initG 1).pool).1, some 1, [], []⟩
        : GPool 1).pool).1, none, [], []⟩ : GPool 1) ∧
    stagedClear (⟨(SharedPool.prod_commit
      (⟨(SharedPool.prod_stage (initG 1).pool).1, some 1, [], []⟩
        : GPool 1).pool).1, none, [], []⟩ : GPool 1) ∧
    RingBufRef.peek (⟨(SharedPool.prod_commit
      (⟨(SharedPool.prod_stage (initG 1).pool).1, some 1, [], []⟩
        : GPool 1).pool).1, none, [], []⟩ : GPool 1).pool.return_rbuf.ringbuf_ref = some 0 ∧
    (SharedPool.stage_with_payload (⟨(SharedPool.prod_commit
      (⟨(SharedPool.prod_stage (initG 1).pool).1, some 1, [], []⟩
        : GPool 1).pool).1, none, [], []⟩ : GPool 1).pool).map Prod.snd =
      some (some SharedPoolError.AllocBufFull) ∧
    RingBufRef.trueLen (swpState (⟨(SharedPool.prod_commit
      (⟨(SharedPool.prod_stage (initG 1).pool).1, some 1, [], []⟩
        : GPool 1).pool).1, none, [], []⟩ : GPool 1).pool).return_rbuf.ringbuf_ref =
      RingBufRef.trueLen (⟨(SharedPool.prod_commit
      (⟨(SharedPool.prod_stage (initG 1).pool).1, some 1, [], []⟩
        : GPool 1).pool).1, none, [], []⟩ : GPool 1).pool.return_rbuf.ringbuf_ref - 1 := by
  have s1 : GStep 1 (initG 1)
      ⟨(SharedPool.prod_stage (initG 1).pool).1, some 1, [], []⟩ :=
    GStep.stage_norm (initG 1) (Or.inl rfl) (by decide)
  have s2 : GStep 1 ⟨(SharedPool.prod_stage (initG 1).pool).1, some 1, [], []⟩
      ⟨(SharedPool.prod_commit
        (⟨(SharedPool.prod_stage (initG 1).pool).1, some 1, [], []⟩
          : GPool 1).pool).1, none, [], []⟩ :=
    GStep.commit_ok _ 1 rfl (by decide)
  have hreach : ReachableG 1 (⟨(SharedPool.prod_commit
      (⟨(SharedPool.prod_stage (initG 1).pool).1, some 1, [], []⟩
        : GPool 1).pool).1, none, [], []⟩ : GPool 1) :=
    Relation.ReflTransGen.tail
      (Relation.ReflTransGen.tail Relation.ReflTransGen.refl s1) s2
  have happ := C4_leak_on_mid_stage_failure 1 (by decide)
    (⟨(SharedPool.prod_commit
      (⟨(SharedPool.prod_stage (initG 1).pool).1, some 1, [], []⟩
        : GPool 1).pool).1, none, [], []⟩ : GPool 1)
    ⟨swpState (⟨(SharedPool.prod_commit
      (⟨(SharedPool.prod_stage (initG 1).pool).1, some 1, [], []⟩
        : GPool 1).pool).1, none, [], []⟩ : GPool 1).pool, none, [], [0]⟩
    0 hreach (Or.inl rfl) (by decide) (by decide) Relation.ReflTransGen.refl
  exact ⟨by decide, hreach, Or.inl rfl, by decide, by decide, happ.2.2.1⟩

/-- C1 counterexample: the claim's literal four-term sum (alloc-queue
entries + Consumer-owned-in-flight + return-queue entries + staged) is
not `1` in every reachable state.  At `N = 1`: stage a sentinel message,
commit it (the alloc queue is now full), then let `stage_with_payload`
take index `0` out of the return queue and fail on the full alloc
queue.  The index is now in no queue, no flight and no staged slot —
the four-term sum is `0` — while the amended five-term account (adding
the leaked indices) still sums to `1`. -/
theorem C1_claim_counterexample :
    ∃ g : GPool 1, ReachableG 1 g ∧ claimSum g 0 = 0 ∧ ghostSum g 0 = 1 := by
  refine ⟨⟨swpState (⟨(SharedPool.prod_commit
      (⟨(SharedPool.prod_stage (initG 1).pool).1, some 1, [], []⟩
        : GPool 1).pool).1, none, [], []⟩ : GPool 1).pool, none, [], [0]⟩, ?_, ?_, ?_⟩
  · have s1 : GStep 1 (initG 1)
        ⟨(SharedPool.prod_stage (initG 1).pool).1, some 1, [], []⟩ :=
      GStep.stage_norm (initG 1) (Or.inl rfl) (by decide)
    have s2 : GStep 1 ⟨(SharedPool.prod_stage (initG 1).pool).1, some 1, [], []⟩
        ⟨(SharedPool.prod_commit
          (⟨(SharedPool.prod_stage (initG 1).pool).1, some 1, [], []⟩
            : GPool 1).pool).1, none, [], []⟩ :=
      GStep.commit_ok _ 1 rfl (by decide)
    have s3 : GStep 1 ⟨(SharedPool.prod_commit
          (⟨(SharedPool.prod_stage (initG 1).pool).1, some 1, [], []⟩
            : GPool 1).pool).1, none, [], []⟩
        ⟨swpState (⟨(SharedPool.prod_commit
          (⟨(SharedPool.prod_stage (initG 1).pool).1, some 1, [], []⟩
            : GPool 1).pool).1, none, [], []⟩ : GPool 1).pool, none, [], [0]⟩ :=
      GStep.stage_payload_leak _ 0 (Or.inl rfl) (by decide) (by decide)
    exact Relation.ReflTransGen.tail
      (Relation.ReflTransGen.tail
        (Relation.ReflTransGen.tail Relation.ReflTransGen.refl s1) s2) s3
  · decide
  · decide

/-- C1 (amended): in every state reachable by legal operation sequences
after `split`, every slot index `i < N` is accounted for exactly once by
the five-term sum: alloc-queue entries naming `i` + flight occurrences
of `i` + return-queue entries naming `i` + (1 iff `i` is staged) +
leaked occurrences of `i`. -/
theorem C1_exclusivity_amended (N : Nat) (h : Supported N) (g : GPool N)
    (hr : ReachableG N g) : ∀ i, i < N → ghostSum g i = 1 :=
  fun i hi => (invg_reachable N h g hr).2.2.2 i hi

theorem C1_exclusivity_amended_witness :
    Supported 1 ∧ ReachableG 1 (initG 1) ∧ ghostSum (initG 1) 0 = 1 :=
  ⟨by decide, Relation.ReflTransGen.refl,
    C1_exclusivity_amended 1 (by decide) (initG 1) Relation.ReflTransGen.refl 0 (by decide)⟩

end Spsc
